import Mathlib

/-!
# Verification of the PR link ranking ingestion and reconciliation engine

Shallow embedding of `src/app.py` (a Flask application for curating
groundtruth rankings of links mentioned in pull requests).

Python dictionaries are modelled as association lists with insertion-order
semantics (`alistLookup` / `alistInsert`): an insert of an existing key
updates it in place, a new key is appended at the end, matching CPython
dict iteration order.  Python's dynamically typed values that can flow
into the rank store are modelled by the inductive `PyVal`.  CSV files are
modelled at row level: a header row plus data rows, mirroring what
`csv.DictReader` hands to the loaders; `csvRender` reproduces the byte
output of `csv.writer` (QUOTE_MINIMAL, CRLF line terminator).
-/

namespace PrLinkRanking

/-! ## Association lists modelling Python dicts -/

def alistLookup {α β : Type} [DecidableEq α] : List (α × β) → α → Option β
  | [], _ => none
  | (k, v) :: rest, key => if k = key then some v else alistLookup rest key

/-- Python dict assignment `d[k] = v`: update the (unique) existing entry
in place, or append a new key at the end (CPython preserves insertion
order). -/
def alistInsert {α β : Type} [DecidableEq α] : List (α × β) → α → β → List (α × β)
  | [], k, v => [(k, v)]
  | (a, b) :: rest, k, v =>
    if a = k then (k, v) :: rest else (a, b) :: alistInsert rest k v

/-- Apply `f` to the value stored at key `k` (in-place mutation of
`d[k]`); no-op when the key is absent. -/
def alistModify {α β : Type} [DecidableEq α] : List (α × β) → α → (β → β) → List (α × β)
  | [], _, _ => []
  | (a, b) :: rest, k, f =>
    if a = k then (a, f b) :: rest else (a, b) :: alistModify rest k f

/-! ## Characters and strings: Python `str.strip`, `str.lower`, `str.split(',')` -/

/-- The whitespace characters stripped by Python `str.strip()` (ASCII part;
the rare non-ASCII Unicode whitespace is outside the modelled character set). -/
def isPySpace (c : Char) : Bool :=
  c = ' ' || c = '\t' || c = '\n' || c = '\r' || c = '\x0b' || c = '\x0c'

def dropTrail (cs : List Char) : List Char :=
  (cs.reverse.dropWhile isPySpace).reverse

def stripChars (cs : List Char) : List Char :=
  dropTrail (cs.dropWhile isPySpace)

/-- Python `s.strip()`. -/
def pyStrip (s : String) : String := ⟨stripChars s.toList⟩

/-- Python `s.lower()` (ASCII case mapping; the inputs compared against
`'none'` in the source are ASCII). -/
def pyLower (s : String) : String := ⟨s.toList.map Char.toLower⟩

/-- Python `s.split(',')`: split on every comma, keeping empty pieces;
`''.split(',') == ['']`.  `cur` accumulates the current piece reversed. -/
def splitCommaAux (cur : List Char) : List Char → List (List Char)
  | [] => [cur.reverse]
  | c :: rest =>
    if c = ',' then cur.reverse :: splitCommaAux [] rest
    else splitCommaAux (c :: cur) rest

def splitComma (cs : List Char) : List (List Char) := splitCommaAux [] cs

/-! ## Python `int(...)` on strings, and decimal rendering `str(...)` of ints -/

def charVal (c : Char) : Nat := c.toNat - 48

/-- ASCII decimal digit test (what Python's `int()` and the literal
grammars accept, up to the Unicode-decimals model boundary; equivalent to
the range test `'0' <= c <= '9'`). -/
def isDig (c : Char) : Bool :=
  c = '0' || c = '1' || c = '2' || c = '3' || c = '4' ||
  c = '5' || c = '6' || c = '7' || c = '8' || c = '9'

/-- Digit sequence with Python's underscore rule for `int()`: single
underscores may separate digits (`int("1_0") == 10`), but no leading,
trailing or doubled underscore.  The flag `pu` records whether the
previous character was an underscore (which must be followed by a digit). -/
def goDigits (pu : Bool) (acc : Nat) : List Char → Option Nat
  | [] => if pu then none else some acc
  | c :: rest =>
    if isDig c then goDigits false (10 * acc + charVal c) rest
    else if c = '_' && !pu then goDigits true acc rest
    else none

def parseDigitsU : List Char → Option Nat
  | [] => none
  | c :: rest => if isDig c then goDigits false (charVal c) rest else none

def pyIntChars : List Char → Option Int
  | [] => none
  | c :: rest =>
    if c = '-' then (parseDigitsU rest).map (fun n => -(n : Int))
    else if c = '+' then (parseDigitsU rest).map (fun n => (n : Int))
    else (parseDigitsU (c :: rest)).map (fun n => (n : Int))

/-- Python `int(s)` on a string: optional surrounding whitespace, optional
sign, decimal digits (ASCII; exotic Unicode decimals are outside the
modelled character set). `none` models a raised `ValueError`. -/
def pyInt? (s : String) : Option Int := pyIntChars (stripChars s.toList)

def digitChar : Nat → Char
  | 0 => '0' | 1 => '1' | 2 => '2' | 3 => '3' | 4 => '4'
  | 5 => '5' | 6 => '6' | 7 => '7' | 8 => '8' | _ => '9'

/-- Decimal digits of `n`, most significant first; fuel-structured so the
kernel can evaluate it (`fuel > n` suffices). -/
def natToDigitsAux : Nat → Nat → List Char
  | 0, _ => []
  | fuel + 1, n =>
    if n < 10 then [digitChar n]
    else natToDigitsAux fuel (n / 10) ++ [digitChar (n % 10)]

def natToDigits (n : Nat) : List Char := natToDigitsAux (n + 1) n

/-- Python `str(n)` for a nonnegative int. -/
def natStr (n : Nat) : String := ⟨natToDigits n⟩

/-- Python `str(n)` for an int. -/
def intStr (n : Int) : String :=
  if n < 0 then ⟨'-' :: natToDigits n.natAbs⟩ else ⟨natToDigits n.natAbs⟩

/-! ## Python values

The loaders feed cell contents through `json.loads` and `ast.literal_eval`;
the resulting dynamically-typed values are modelled by `PyVal`.  Numeric
literals are modelled for integers only: float, complex, bytes, tuple and
set literals make the modelled parsers fail (`none`), a documented model
boundary — no claim and no witness below exercises them. -/

inductive PyVal where
  | vnone : PyVal
  | vbool (b : Bool) : PyVal
  | vint (n : Int) : PyVal
  | vstr (s : String) : PyVal
  | vlist (xs : List PyVal) : PyVal
  | vdict (xs : List (String × PyVal)) : PyVal
deriving Repr, Inhabited

/-- Python truthiness (`if v:`). -/
def pyTruthy : PyVal → Bool
  | .vnone => false
  | .vbool b => b
  | .vint n => n != 0
  | .vstr s => s != ""
  | .vlist xs => !xs.isEmpty
  | .vdict xs => !xs.isEmpty

/-- Python `repr` escaping for the characters the model covers. -/
def reprEscape : List Char → List Char
  | [] => []
  | c :: rest =>
    (if c = '\\' then ['\\', '\\']
     else if c = '\x27' then ['\\', '\x27']
     else if c = '\n' then ['\\', 'n']
     else if c = '\r' then ['\\', 'r']
     else if c = '\t' then ['\\', 't']
     else [c]) ++ reprEscape rest

mutual

/-- Python `repr(v)` (strings always rendered with single quotes; CPython's
quote-switching for strings containing a quote is a model boundary). -/
def pyRepr : PyVal → String
  | .vnone => "None"
  | .vbool true => "True"
  | .vbool false => "False"
  | .vint n => intStr n
  | .vstr s => "\x27" ++ ⟨reprEscape s.toList⟩ ++ "\x27"
  | .vlist xs => "[" ++ String.intercalate ", " (pyReprList xs) ++ "]"
  | .vdict xs => "\x7b" ++ String.intercalate ", " (pyReprPairs xs) ++ "\x7d"

def pyReprList : List PyVal → List String
  | [] => []
  | v :: vs => pyRepr v :: pyReprList vs

def pyReprPairs : List (String × PyVal) → List String
  | [] => []
  | (k, v) :: vs =>
    ("\x27" ++ ⟨reprEscape k.toList⟩ ++ "\x27: " ++ pyRepr v) :: pyReprPairs vs

end

/-- Python `str(v)`: identity on strings, `repr`-style elsewhere. -/
def pyStr : PyVal → String
  | .vstr s => s
  | v => pyRepr v

/-! ## Model of `json.loads` (restricted to the shapes described above) -/

def skipWs : List Char → List Char
  | [] => []
  | c :: rest =>
    if c = ' ' || c = '\t' || c = '\n' || c = '\r' then skipWs rest else c :: rest

def hexVal (c : Char) : Option Nat :=
  if isDig c then some (charVal c)
  else if 'a' ≤ c && c ≤ 'f' then some (c.toNat - 87)
  else if 'A' ≤ c && c ≤ 'F' then some (c.toNat - 55)
  else none

/-- Body of a JSON string after the opening quote: returns the decoded
content and the input remaining after the closing quote.  Surrogate-pair
combination for `\uXXXX` escapes is a model boundary. -/
def jsonStringBody : Nat → List Char → Option (List Char × List Char)
  | 0, _ => none
  | fuel + 1, cs =>
    match cs with
    | [] => none
    | '"' :: rest => some ([], rest)
    | '\\' :: e :: rest =>
      let cont := fun (c : Char) (rest' : List Char) =>
        (jsonStringBody fuel rest').map (fun p => (c :: p.1, p.2))
      if e = '"' then cont '"' rest
      else if e = '\\' then cont '\\' rest
      else if e = '/' then cont '/' rest
      else if e = 'b' then cont '\x08' rest
      else if e = 'f' then cont '\x0c' rest
      else if e = 'n' then cont '\n' rest
      else if e = 'r' then cont '\r' rest
      else if e = 't' then cont '\t' rest
      else if e = 'u' then
        match rest with
        | h1 :: h2 :: h3 :: h4 :: rest2 =>
          match hexVal h1, hexVal h2, hexVal h3, hexVal h4 with
          | some a, some b, some c, some d =>
            cont (Char.ofNat (((a * 16 + b) * 16 + c) * 16 + d)) rest2
          | _, _, _, _ => none
        | _ => none
      else none
    | c :: rest =>
      if c.toNat < 32 then none
      else (jsonStringBody fuel rest).map (fun p => (c :: p.1, p.2))

def digitsVal (cs : List Char) : Nat :=
  cs.foldl (fun a c => 10 * a + charVal c) 0

/-- JSON number: integer part only; a following `.`, `e` or `E` (a float,
outside the model) makes the parse fail. -/
def jsonNumber (cs : List Char) : Option (Int × List Char) :=
  let (sgn, cs1) : Bool × List Char :=
    match cs with
    | '-' :: rest => (true, rest)
    | _ => (false, cs)
  let digs := cs1.takeWhile isDig
  let rest := cs1.drop digs.length
  match digs with
  | [] => none
  | d :: ds =>
    if d = '0' && !ds.isEmpty then none
    else
      match rest with
      | '.' :: _ => none
      | 'e' :: _ => none
      | 'E' :: _ => none
      | _ =>
        let n : Int := digitsVal digs
        some (if sgn then -n else n, rest)

mutual

def jsonVal : Nat → List Char → Option (PyVal × List Char)
  | 0, _ => none
  | fuel + 1, cs =>
    match skipWs cs with
    | '"' :: rest =>
      (jsonStringBody (fuel + 1) rest).map (fun p => (PyVal.vstr ⟨p.1⟩, p.2))
    | '[' :: rest =>
      (match skipWs rest with
       | ']' :: r2 => some (PyVal.vlist [], r2)
       | cs2 => (jsonItems fuel cs2).map (fun p => (PyVal.vlist p.1, p.2)))
    | '\x7b' :: rest =>
      (match skipWs rest with
       | '\x7d' :: r2 => some (PyVal.vdict [], r2)
       | cs2 => (jsonMembers fuel [] cs2).map (fun p => (PyVal.vdict p.1, p.2)))
    | 't' :: 'r' :: 'u' :: 'e' :: rest => some (PyVal.vbool true, rest)
    | 'f' :: 'a' :: 'l' :: 's' :: 'e' :: rest => some (PyVal.vbool false, rest)
    | 'n' :: 'u' :: 'l' :: 'l' :: rest => some (PyVal.vnone, rest)
    | cs2 => (jsonNumber cs2).map (fun p => (PyVal.vint p.1, p.2))

def jsonItems : Nat → List Char → Option (List PyVal × List Char)
  | 0, _ => none
  | fuel + 1, cs =>
    match jsonVal fuel cs with
    | none => none
    | some (v, rest) =>
      match skipWs rest with
      | ',' :: r2 => (jsonItems fuel r2).map (fun p => (v :: p.1, p.2))
      | ']' :: r2 => some ([v], r2)
      | _ => none

def jsonMembers : Nat → List (String × PyVal) → List Char →
    Option (List (String × PyVal) × List Char)
  | 0, _, _ => none
  | fuel + 1, acc, cs =>
    match skipWs cs with
    | '"' :: rest =>
      (match jsonStringBody (fuel + 1) rest with
       | none => none
       | some (k, r1) =>
         match skipWs r1 with
         | ':' :: r2 =>
           (match jsonVal fuel r2 with
            | none => none
            | some (v, r3) =>
              let acc2 := alistInsert acc (⟨k⟩ : String) v
              match skipWs r3 with
              | ',' :: r4 => jsonMembers fuel acc2 r4
              | '\x7d' :: r4 => some (acc2, r4)
              | _ => none)
         | _ => none)
    | _ => none

end

/-- Model of `json.loads` on a cell string; `none` models a raised
exception. -/
def jsonParse (s : String) : Option PyVal :=
  let cs := s.toList
  match jsonVal (2 * cs.length + 8) cs with
  | some (v, rest) => if (skipWs rest).isEmpty then some v else none
  | none => none

/-! ## Model of `ast.literal_eval` (same restrictions as above) -/

/-- Body of a Python string literal with quote character `q`, after the
opening quote; the modelled escapes are the common ones that appear in the
data (`\\`, `\'`, `\"`, `\n`, `\t`, `\r`). -/
def pyStringBody (q : Char) : Nat → List Char → Option (List Char × List Char)
  | 0, _ => none
  | fuel + 1, cs =>
    match cs with
    | [] => none
    | '\\' :: e :: rest =>
      let cont := fun (c : Char) (rest' : List Char) =>
        (pyStringBody q fuel rest').map (fun p => (c :: p.1, p.2))
      if e = '\\' then cont '\\' rest
      else if e = '\x27' then cont '\x27' rest
      else if e = '"' then cont '"' rest
      else if e = 'n' then cont '\n' rest
      else if e = 't' then cont '\t' rest
      else if e = 'r' then cont '\r' rest
      else none
    | c :: rest =>
      if c = q then some ([], rest)
      else if c = '\n' then none
      else (pyStringBody q fuel rest).map (fun p => (c :: p.1, p.2))

/-- Python decimal integer literal: digits with single underscores, no
leading zero on a nonzero value. -/
def litNumber (cs : List Char) : Option (Nat × List Char) :=
  let tok := cs.takeWhile (fun c => isDig c || c = '_')
  let rest := cs.drop tok.length
  match tok with
  | [] => none
  | c :: _ =>
    if !isDig c then none
    else if c = '0' && tok.any (fun d => isDig d && d != '0') then none
    else (parseDigitsU tok).map (fun n => (n, rest))

mutual

def litVal : Nat → List Char → Option (PyVal × List Char)
  | 0, _ => none
  | fuel + 1, cs =>
    match skipWs cs with
    | '\x27' :: rest =>
      (pyStringBody '\x27' (fuel + 1) rest).map (fun p => (PyVal.vstr ⟨p.1⟩, p.2))
    | '"' :: rest =>
      (pyStringBody '"' (fuel + 1) rest).map (fun p => (PyVal.vstr ⟨p.1⟩, p.2))
    | '[' :: rest =>
      (match skipWs rest with
       | ']' :: r2 => some (PyVal.vlist [], r2)
       | cs2 => (litItems fuel cs2).map (fun p => (PyVal.vlist p.1, p.2)))
    | '\x7b' :: rest =>
      (match skipWs rest with
       | '\x7d' :: r2 => some (PyVal.vdict [], r2)
       | cs2 => (litMembers fuel [] cs2).map (fun p => (PyVal.vdict p.1, p.2)))
    | 'T' :: 'r' :: 'u' :: 'e' :: rest => some (PyVal.vbool true, rest)
    | 'F' :: 'a' :: 'l' :: 's' :: 'e' :: rest => some (PyVal.vbool false, rest)
    | 'N' :: 'o' :: 'n' :: 'e' :: rest => some (PyVal.vnone, rest)
    | '-' :: rest =>
      (litNumber (skipWs rest)).map (fun p => (PyVal.vint (-(p.1 : Int)), p.2))
    | '+' :: rest =>
      (litNumber (skipWs rest)).map (fun p => (PyVal.vint (p.1 : Int), p.2))
    | cs2 => (litNumber cs2).map (fun p => (PyVal.vint (p.1 : Int), p.2))

def litItems : Nat → List Char → Option (List PyVal × List Char)
  | 0, _ => none
  | fuel + 1, cs =>
    match litVal fuel cs with
    | none => none
    | some (v, rest) =>
      match skipWs rest with
      | ',' :: r2 =>
        (match skipWs r2 with
         | ']' :: r3 => some ([v], r3)
         | cs3 => (litItems fuel cs3).map (fun p => (v :: p.1, p.2)))
      | ']' :: r2 => some ([v], r2)
      | _ => none

def litMembers : Nat → List (String × PyVal) → List Char →
    Option (List (String × PyVal) × List Char)
  | 0, _, _ => none
  | fuel + 1, acc, cs =>
    match litVal fuel cs with
    | some (PyVal.vstr k, r1) =>
      (match skipWs r1 with
       | ':' :: r2 =>
         (match litVal fuel r2 with
          | none => none
          | some (v, r3) =>
            let acc2 := alistInsert acc k v
            match skipWs r3 with
            | ',' :: r4 =>
              (match skipWs r4 with
               | '\x7d' :: r5 => some (acc2, r5)
               | cs5 => litMembers fuel acc2 cs5)
            | '\x7d' :: r4 => some (acc2, r4)
            | _ => none)
       | _ => none)
    | _ => none

end

/-- Model of `ast.literal_eval` on a cell string; `none` models a raised
exception (including the constructs outside the modelled fragment). -/
def literalParse (s : String) : Option PyVal :=
  let cs := s.toList
  match litVal (2 * cs.length + 8) cs with
  | some (v, rest) => if (skipWs rest).isEmpty then some v else none
  | none => none

/-! ## Data model

A `Link` mirrors the per-link dicts built by the loaders.  In the source
the values stored under `link_url`/`link_text`/`label_word` are whatever
objects the cell decoding produced (strings in every reachable flow);
the model applies `pyStr` where the source would store a raw decoded
object, which coincides with the source whenever the decoded values are
strings.  The redundant `pr_id` field of a PR record (always set equal to
`pr_link` by both loaders) is not duplicated in the model. -/

structure Link where
  link_url : String
  link_text : String
  label_word : String
  rank : Option Int
deriving Repr, DecidableEq

/-- The `link_count` cell keeps a string when the column was present in the
source file, and the integer `len(links_list)` otherwise. -/
inductive CellV where
  | cstr (s : String) : CellV
  | cnat (n : Nat) : CellV
deriving Repr, DecidableEq

/-- Stringification applied by `csv.writer` to the stored value. -/
def CellV.toCsv : CellV → String
  | .cstr s => s
  | .cnat n => natStr n

structure PR where
  uid : String
  pr_link : String
  repo : String
  pr_title : String
  media_type : String
  isGithub : String
  link_count : CellV
  links : List Link
deriving Repr, DecidableEq

/-- Cell access on a `csv.DictReader` row: the header names are zipped with
the row's cells; an absent column yields the supplied default (`row.get`).
Headers appearing in this development have no duplicate names, and the rows
built by the export serializer always have exactly one cell per column. -/
def getCell (header row : List String) (col : String) (dflt : String) : String :=
  match alistLookup (header.zip row) col with
  | some v => v
  | none => dflt

/-! ## Link-list decoding (`load_csv_data` lines 69-104) -/

/-- Comma-separated fallback:
`[link.strip() for link in links_str.split(',') if link.strip()]`. -/
def commaTokens (s : String) : List PyVal :=
  (splitComma s.toList).filterMap (fun w =>
    if (stripChars w).isEmpty then none else some (PyVal.vstr ⟨stripChars w⟩))

/-- Decode a (pre-stripped) `link`/`links` cell in the data-load flow:
JSON first, then Python literal, then comma split. -/
def parseLinksCell (links_str : String) : List PyVal :=
  if links_str = "" then []
  else
    match jsonParse links_str with
    | some (PyVal.vlist xs) => xs
    | some (PyVal.vdict d) => [PyVal.vdict d]
    | some _ => []
    | none =>
      match literalParse links_str with
      | some (PyVal.vlist xs) => xs
      | some v => if pyTruthy v then [v] else []
      | none => commaTokens links_str

/-- Decode a (pre-stripped, nonempty) cell by Python literal then comma
split, wrapping a non-list literal as a one-element list. -/
def parseLiteralListCell (s : String) : List PyVal :=
  match literalParse s with
  | some (PyVal.vlist xs) => xs
  | some v => [v]
  | none => commaTokens s

/-- Decode a (pre-stripped) `label_word` cell in the data-load flow. -/
def parseLabelCell (label_words_str : String) : List PyVal :=
  if label_words_str = "" then [] else parseLiteralListCell label_words_str

/-- Build one link entry from a decoded element (`load_csv_data` lines
119-138): dict elements contribute `url`/`link_url` and `text`/`link_text`
keys, anything else is stringified as a bare URL. -/
def mkLink (idx : Nat) (label_text : PyVal) (link : PyVal) : Link :=
  match link with
  | PyVal.vdict d =>
    { link_url := pyStr ((alistLookup d "url").getD
        ((alistLookup d "link_url").getD (PyVal.vstr "")))
      link_text :=
        if pyTruthy label_text then pyStr label_text
        else pyStr ((alistLookup d "text").getD
          ((alistLookup d "link_text").getD (PyVal.vstr "")))
      label_word := pyStr label_text
      rank := none }
  | l =>
    { link_url := pyStr l
      link_text :=
        if pyTruthy label_text then pyStr label_text
        else "Link " ++ natStr (idx + 1)
      label_word := pyStr label_text
      rank := none }

/-! ## `load_csv_data` (lines 25-140) -/

def requiredColumns : List String := ["uid", "pr_link", "repo", "pr_title"]

/-- Processing of one data row.  Everything — link decoding included —
happens only when the `pr_link` key is new; a row repeating an existing
key leaves the accumulated map untouched. -/
def load_csv_row_step (header : List String)
    (has_label_word has_link has_links : Bool)
    (prs : List (String × PR)) (row : List String) : List (String × PR) :=
  if (alistLookup prs (getCell header row "pr_link" "")).isSome then prs
  else
    let pr_link := getCell header row "pr_link" ""

    let links_str :=
      if has_link then pyStrip (getCell header row "link" "")
      else if has_links then pyStrip (getCell header row "links" "")
      else ""
    let links_list := parseLinksCell links_str
    let label_words : List PyVal :=
      if has_label_word then parseLabelCell (pyStrip (getCell header row "label_word" ""))
      else []
    let links := links_list.enum.map (fun p =>
      mkLink p.1 (label_words.getD p.1 (PyVal.vstr "")) p.2)
    prs ++ [(pr_link,
      { uid := getCell header row "uid" ""
        pr_link := pr_link
        repo := getCell header row "repo" ""
        pr_title := getCell header row "pr_title" ""
        media_type := getCell header row "media_type" ""
        isGithub := getCell header row "isGithub" ""
        link_count :=
          if header.contains "link_count" then CellV.cstr (getCell header row "link_count" "")
          else CellV.cnat links_list.length
        links := links })]

/-- Model of `load_csv_data`: the error carries the missing required
columns (the source interpolates a Python set, whose iteration order is
unspecified; the model lists them in declaration order). -/
def load_csv_data (header : List String) (rows : List (List String)) :
    Except (List String) (List (String × PR)) :=
  if (requiredColumns.filter (fun c => !header.contains c)).isEmpty then
    Except.ok (rows.foldl
      (load_csv_row_step header (header.contains "label_word")
        (header.contains "link") (header.contains "links")) [])
  else Except.error (requiredColumns.filter (fun c => !header.contains c))

/-! ## `load_ranking_csv_data` (lines 143-304)

The per-PR rankings accumulated by this loader form a flat string-keyed
dict mixing URL keys and stringified index keys; the split into
`by_index`/`by_url` happens later in the `/api/load_ranking` route. -/

/-- Rank-cell parsing on an already-stripped string:
`if rank_str and rank_str.lower() != 'none': try int(...)`. -/
def rank_of_cell (rank_str : String) : Option Int :=
  if rank_str ≠ "" && pyLower rank_str ≠ "none" then pyInt? rank_str else none

/-- The PR record created on first sight of a key in the ranking loader. -/
def freshRankPR (header : List String) (row : List String) (pr_link : String) : PR :=
  { uid := getCell header row "uid" ""
    pr_link := pr_link
    repo := getCell header row "repo" ""
    pr_title := getCell header row "pr_title" ""
    media_type := getCell header row "media_type" ""
    isGithub := getCell header row "isGithub" ""
    link_count := CellV.cstr (getCell header row "link_count" "")
    links := [] }

def load_ranking_row (header : List String)
    (is_new_format_labels is_new_format : Bool)
    (st : List (String × PR) × List (String × List (String × Int)))
    (row : List String) :
    List (String × PR) × List (String × List (String × Int)) :=
  let pr_link := getCell header row "pr_link" ""
  let prs :=
    if (alistLookup st.1 pr_link).isSome then st.1
    else st.1 ++ [(pr_link, freshRankPR header row pr_link)]
  let rankings :=
    if (alistLookup st.2 pr_link).isSome then st.2
    else st.2 ++ [(pr_link, [])]
  if is_new_format_labels then
    -- one row per link with label and explicit index
    let link_url := pyStrip (getCell header row "link" "")
    let label_word := pyStrip (getCell header row "label_word" "")
    let rank := rank_of_cell (pyStrip (getCell header row "rank" ""))
    let newLink : Link :=
      { link_url := link_url,
        link_text := if label_word ≠ "" then label_word else "Link",
        label_word := label_word, rank := rank }
    let prs := alistModify prs pr_link (fun pr =>
      { pr with links := pr.links ++ [newLink] })
    let rankings :=
      match rank with
      | none => rankings
      | some r =>
        let rankings := alistModify rankings pr_link (fun m => alistInsert m link_url r)
        match pyInt? (pyStrip (getCell header row "link_index" "")) with
        | some li => alistModify rankings pr_link (fun m => alistInsert m (intStr li) r)
        | none => rankings
    (prs, rankings)
  else if is_new_format then
    -- combined links / label_word / ranks lists in one row
    let links_str := pyStrip (getCell header row "links" "")
    if links_str = "" then (prs, rankings)
    else
      let links_list := parseLiteralListCell links_str
      let label_words_str := pyStrip (getCell header row "label_word" "")
      let label_words := if label_words_str = "" then [] else parseLiteralListCell label_words_str
      let ranks_str := pyStrip (getCell header row "ranks" "")
      let ranks_list : List String :=
        if ranks_str = "" then links_list.map (fun _ => "")
        else (splitComma ranks_str.toList).map (fun l => (⟨l⟩ : String))
      links_list.enum.foldl (fun st2 p =>
        let idx := p.1
        let linkv := p.2
        let label := label_words.getD idx (PyVal.vstr "")
        let rank := rank_of_cell (pyStrip (ranks_list.getD idx ""))
        let newLink : Link :=
          { link_url := pyStr linkv,
            link_text := if pyTruthy label then pyStr label else "Link " ++ natStr (idx + 1),
            label_word := pyStr label, rank := rank }
        let prs2 := alistModify st2.1 pr_link (fun pr =>
          { pr with links := pr.links ++ [newLink] })
        let rks2 :=
          match rank with
          | none => st2.2
          | some r =>
            alistModify (alistModify st2.2 pr_link (fun m => alistInsert m (pyStr linkv) r))
              pr_link (fun m => alistInsert m (natStr idx) r)
        (prs2, rks2)) (prs, rankings)
  else
    -- old format: one row per link, `link_url` / `rank`
    let link_url := getCell header row "link_url" ""
    let label_text := getCell header row "link_text" "Link"
    let rank := rank_of_cell (pyStrip (getCell header row "rank" ""))
    let newLink : Link :=
      { link_url := link_url, link_text := label_text,
        label_word := label_text, rank := rank }
    let prs := alistModify prs pr_link (fun pr =>
      { pr with links := pr.links ++ [newLink] })
    let rankings :=
      match rank with
      | none => rankings
      | some r => alistModify rankings pr_link (fun m => alistInsert m link_url r)
    (prs, rankings)

def load_ranking_csv_data (header : List String) (rows : List (List String)) :
    Except String (List (String × PR) × List (String × List (String × Int))) :=
  let is_new_format_labels := header.contains "label_word" && header.contains "link_index"
      && header.contains "link"
  let is_new_format := header.contains "links" && header.contains "ranks"
  let is_old_format := header.contains "link_url" && header.contains "rank"
  if !(is_new_format_labels || is_new_format || is_old_format) then
    Except.error "CSV must contain either (link, label_word, link_index), (links, ranks), or (link_url, rank) columns"
  else if !(header.contains "uid") || !(header.contains "pr_link") then
    Except.error "Missing required columns: uid, pr_link"
  else
    Except.ok (rows.foldl (load_ranking_row header is_new_format_labels is_new_format) ([], []))

/-! ## The dual-keyed rank store

A normalized per-PR rank entry holds `by_index` and `by_url`.  In CPython
the `by_index` dict can in principle hold `int` and `str` keys side by
side (`1` and `"1"` are distinct dict keys), and the read paths probe both
(`idx in by_index or str(idx) in by_index`); `PyKey` models that key
space.  Every code path that writes `by_index` stores `int` keys with
`int` values, so values are typed `Int` (the `int(...)` conversion in
`get_pr`'s string-key probe can therefore not fail).  The values of
`by_url` come either from the normalization (always ints) or verbatim
from the JSON body of a `/api/rank` request, hence `PyVal`. -/

inductive PyKey where
  | ik (n : Int) : PyKey
  | sk (s : String) : PyKey
deriving Repr, DecidableEq

structure RankEntry where
  by_index : List (PyKey × Int)
  by_url : List (String × PyVal)
deriving Repr

def emptyRankEntry : RankEntry := ⟨[], []⟩

/-- The state the boundary layer holds in `current_data`. -/
structure Session where
  prs : List (String × PR)
  rankings : List (String × RankEntry)

/-- Probe of the index-keyed map shared by every read path: the integer
key first, then its string form (`by_index.get(idx, by_index.get(str(idx), …))`). -/
def lookupIndexRank (bi : List (PyKey × Int)) (idx : Nat) : Option Int :=
  match alistLookup bi (PyKey.ik (idx : Int)) with
  | some v => some v
  | none => alistLookup bi (PyKey.sk (natStr idx))

/-- The resolution rule of §4.5: URL key first, then index key (int form,
then string form); `none` is "unresolved". -/
def resolveRank (rk : RankEntry) (idx : Nat) (url : String) : Option PyVal :=
  match alistLookup rk.by_url url with
  | some v => some v
  | none => (lookupIndexRank rk.by_index idx).map PyVal.vint

/-! ## `/api/load_ranking` normalization (lines 393-408) -/

/-- Split a flat string-keyed rankings dict into `by_index` / `by_url`:
keys that `int(...)` accepts go to `by_index` (as ints), the rest to
`by_url`.  Values here are the ints produced by `load_ranking_csv_data`,
so the `int(val)` conversion is the identity. -/
def normalizeRankings (rk : List (String × Int)) : RankEntry :=
  rk.foldl (fun acc p =>
    match pyInt? p.1 with
    | some ik => { acc with by_index := alistInsert acc.by_index (PyKey.ik ik) p.2 }
    | none => { acc with by_url := alistInsert acc.by_url p.1 (PyVal.vint p.2) })
    emptyRankEntry

/-- The `/api/load_ranking` route: on success both session maps are
replaced; on a loader error the session keeps its prior contents (the
route returns a 500 response without touching `current_data`). -/
def load_ranking (sess : Session) (header : List String) (rows : List (List String)) :
    Session :=
  match load_ranking_csv_data header rows with
  | Except.ok pr => ⟨pr.1, pr.2.map (fun q => (q.1, normalizeRankings q.2))⟩
  | Except.error _ => sess

/-- The `/api/load` route: same replacement discipline, with the rank
store reset to empty. -/
def load_data (sess : Session) (header : List String) (rows : List (List String)) :
    Session :=
  match load_csv_data header rows with
  | Except.ok prs => ⟨prs, []⟩
  | Except.error _ => sess

/-! ## `/api/rank` — `save_ranking` (lines 491-532) -/

/-- Python `int(v)` on a request value. -/
def pyIntOfVal : PyVal → Option Int
  | .vint n => some n
  | .vbool b => some (if b then 1 else 0)
  | .vstr s => pyInt? s
  | _ => none

/-- Normalization of the incoming `rankings` mapping, iterating the items
in order: a key whose `int(k)` succeeds *and* whose value converts with
`int(v)` lands in `by_index`; any failure in that `try` block
(non-integer key or non-convertible value) sends the pair to `by_url`
verbatim. -/
def splitRankUpdatesAux (acc : List (PyKey × Int) × List (String × PyVal)) :
    List (String × PyVal) → List (PyKey × Int) × List (String × PyVal)
  | [] => acc
  | p :: rest =>
    match pyInt? p.1 with
    | some ik =>
      match pyIntOfVal p.2 with
      | some iv => splitRankUpdatesAux (alistInsert acc.1 (PyKey.ik ik) iv, acc.2) rest
      | none => splitRankUpdatesAux (acc.1, alistInsert acc.2 p.1 p.2) rest
    | none => splitRankUpdatesAux (acc.1, alistInsert acc.2 p.1 p.2) rest

def splitRankUpdates (updates : List (String × PyVal)) :
    List (PyKey × Int) × List (String × PyVal) :=
  splitRankUpdatesAux ([], []) updates

/-- The merge of one save into a PR's (possibly absent) rank entry:
`by_url` is the existing map overridden by the incoming URL pairs,
`by_index` is replaced wholesale by the incoming index pairs. -/
def saveRanksEntry (existing : Option RankEntry) (updates : List (String × PyVal)) :
    RankEntry :=
  let split := splitRankUpdates updates
  let existing_by_url := (existing.getD emptyRankEntry).by_url
  { by_index := split.1
    by_url := split.2.foldl (fun acc p => alistInsert acc p.1 p.2) existing_by_url }

/-- The `/api/rank` route: rejects an empty `pr_id` or empty mapping
(HTTP 400) and an unknown PR (HTTP 404) without touching the store. -/
def save_ranking (sess : Session) (pr_id : String) (updates : List (String × PyVal)) :
    Session :=
  if pr_id = "" || updates.isEmpty then sess
  else if (alistLookup sess.prs pr_id).isNone then sess
  else
    let entry := saveRanksEntry (alistLookup sess.rankings pr_id) updates
    { sess with rankings := alistInsert sess.rankings pr_id entry }

/-! ## Read paths: `get_pr`, `get_prs`, `export_csv`, `export_json` -/

/-- Per-link rank resolution in `get_pr` (lines 463-487): URL mapping
first, then the index mapping (int key, then string key with an `int()`
conversion that cannot fail on the `Int`-valued store); when nothing
matches — or when the PR has no rankings entry at all — the link keeps
the rank stored in the PR model. -/
def getPrLinkRank : Option RankEntry → Nat → Link → Option PyVal
  | none, _, link => link.rank.map PyVal.vint
  | some rk, idx, link =>
    match alistLookup rk.by_url link.link_url with
    | some v => some v
    | none =>
      match alistLookup rk.by_index (PyKey.ik (idx : Int)) with
      | some n => some (PyVal.vint n)
      | none =>
        match alistLookup rk.by_index (PyKey.sk (natStr idx)) with
        | some n => some (PyVal.vint n)
        | none => link.rank.map PyVal.vint

/-- The `/api/pr/<pr_id>` route, reduced to the per-link resolved ranks
(`none` on the outside models the 404). -/
def get_pr (sess : Session) (pr_id : String) : Option (List (Option PyVal)) :=
  match alistLookup sess.prs pr_id with
  | none => none
  | some pr =>
    some (pr.links.enum.map (fun p =>
      getPrLinkRank (alistLookup sess.rankings pr_id) p.1 p.2))

/-- One link's membership test in `get_prs` (line 442): counted as ranked
when the index (either key form) or the URL appears in the entry. -/
def linkCounted (rk : RankEntry) (idx : Nat) (link : Link) : Bool :=
  (alistLookup rk.by_index (PyKey.ik (idx : Int))).isSome
    || (alistLookup rk.by_index (PyKey.sk (natStr idx))).isSome
    || (alistLookup rk.by_url link.link_url).isSome

/-- The `ranked` flag computed by `/api/prs` for one PR: `False` when the
PR has no rankings entry, else a count of links resolvable by index or
URL compared against the link total. -/
def prRanked (rankings : List (String × RankEntry)) (pr_id : String) (links : List Link) :
    Bool :=
  match alistLookup rankings pr_id with
  | none => false
  | some rk =>
    links.enum.foldl (fun c p => if linkCounted rk p.1 p.2 then c + 1 else c) 0
      == links.length

/-- The cell written for a resolved rank value:
`str(rank) if rank != '' else ''` (only a string value can equal `''`). -/
def csvCellOfRank : PyVal → String
  | PyVal.vstr s => if s = "" then "" else s
  | v => pyStr v

/-- Rank cell written by `export_csv` (lines 552-558 and 573): the value
from `by_url` (any request value) or `by_index` (an int), else `''`. -/
def exportCsvRankCell (rk : RankEntry) (idx : Nat) (url : String) : String :=
  match alistLookup rk.by_url url with
  | some v => csvCellOfRank v
  | none =>
    match lookupIndexRank rk.by_index idx with
    | some n => intStr n
    | none => ""

/-- Rank value placed by `export_json` (lines 610-617): URL mapping first,
then the index probe, else `null`. -/
def exportJsonRank (rk : RankEntry) (idx : Nat) (url : String) : Option PyVal :=
  match alistLookup rk.by_url url with
  | some v => some v
  | none => (lookupIndexRank rk.by_index idx).map PyVal.vint

def exportHeader : List String :=
  ["uid", "pr_link", "repo", "pr_title", "media_type", "isGithub", "link_count",
   "link", "label_word", "link_index", "rank"]

/-- The per-PR rank entry a read path works with:
`current_data['rankings'].get(pr_id, {'by_index': {}, 'by_url': {}})`. -/
def sessionEntry (sess : Session) (pr_id : String) : RankEntry :=
  (alistLookup sess.rankings pr_id).getD emptyRankEntry

/-- One link's CSV row as written by `export_csv`. -/
def exportRowOf (rk : RankEntry) (pr : PR) (q : Nat × Link) : List String :=
  [pr.uid, pr.pr_link, pr.repo, pr.pr_title, pr.media_type, pr.isGithub,
   pr.link_count.toCsv, q.2.link_url, q.2.label_word, natStr q.1,
   exportCsvRankCell rk q.1 q.2.link_url]

/-- The CSV rows `export_csv` writes for one PR: one row per link. -/
def prCsvRows (rk : RankEntry) (pr : PR) : List (List String) :=
  pr.links.enum.map (exportRowOf rk pr)

/-- All data rows of `export_csv`, in the session's PR iteration order;
a PR with no rankings entry uses the empty default entry. -/
def export_csv_rows (sess : Session) : List (List String) :=
  sess.prs.foldr (fun p acc => prCsvRows (sessionEntry sess p.1) p.2 ++ acc) []

/-- Minimal quoting of `csv.writer`: a field is quoted iff it contains the
delimiter, the quote char or a line-terminator character; quotes double. -/
def csvQuoteField (s : String) : String :=
  let cs := s.toList
  if cs.any (fun c => c = ',' || c = '"' || c = '\n' || c = '\r') then
    "\"" ++ ⟨cs.foldr (fun c acc => if c = '"' then '"' :: '"' :: acc else c :: acc) []⟩ ++ "\""
  else s

def csvRenderRow (cells : List String) : String :=
  String.intercalate "," (cells.map csvQuoteField) ++ "\r\n"

/-- Byte output of `csv.writer` on a row list (CRLF after every row). -/
def csvRender (rows : List (List String)) : String :=
  String.join (rows.map csvRenderRow)

/-- The full byte output of `/api/export/csv`. -/
def export_csv (sess : Session) : String :=
  csvRender (exportHeader :: export_csv_rows sess)

/-! ## Lemmas: the dict model -/

theorem alistLookup_append_of_none {α β : Type} [DecidableEq α]
    (l1 l2 : List (α × β)) (k : α) (h : alistLookup l1 k = none) :
    alistLookup (l1 ++ l2) k = alistLookup l2 k := by
  induction l1 with
  | nil => rfl
  | cons p rest ih =>
    rcases p with ⟨a, b⟩
    simp only [alistLookup] at h ⊢
    by_cases ha : a = k
    · simp [ha] at h
    · rw [if_neg ha] at h ⊢
      exact ih h

theorem alistLookup_append_of_some {α β : Type} [DecidableEq α]
    (l1 l2 : List (α × β)) (k : α) (v : β) (h : alistLookup l1 k = some v) :
    alistLookup (l1 ++ l2) k = some v := by
  induction l1 with
  | nil => simp [alistLookup] at h
  | cons p rest ih =>
    rcases p with ⟨a, b⟩
    simp only [alistLookup] at h ⊢
    by_cases ha : a = k
    · rw [if_pos ha] at h ⊢; exact h
    · rw [if_neg ha] at h ⊢; exact ih h

theorem alistLookup_insert_self {α β : Type} [DecidableEq α]
    (l : List (α × β)) (k : α) (v : β) :
    alistLookup (alistInsert l k v) k = some v := by
  induction l with
  | nil => simp [alistInsert, alistLookup]
  | cons p rest ih =>
    rcases p with ⟨a, b⟩
    by_cases ha : a = k
    · simp [alistInsert, ha, alistLookup]
    · simp [alistInsert, ha, alistLookup, ih]

theorem alistLookup_insert_ne {α β : Type} [DecidableEq α]
    (l : List (α × β)) (k k' : α) (v : β) (h : k ≠ k') :
    alistLookup (alistInsert l k v) k' = alistLookup l k' := by
  induction l with
  | nil => simp [alistInsert, alistLookup, h]
  | cons p rest ih =>
    rcases p with ⟨a, b⟩
    by_cases ha : a = k
    · subst ha
      simp [alistInsert, alistLookup, h, ih]
    · simp [alistInsert, ha, alistLookup, ih]

theorem alistInsert_of_none {α β : Type} [DecidableEq α]
    (l : List (α × β)) (k : α) (v : β) (h : alistLookup l k = none) :
    alistInsert l k v = l ++ [(k, v)] := by
  induction l with
  | nil => rfl
  | cons p rest ih =>
    rcases p with ⟨a, b⟩
    simp only [alistLookup] at h
    by_cases ha : a = k
    · simp [ha] at h
    · rw [if_neg ha] at h
      simp [alistInsert, ha, ih h]

theorem alistModify_of_none {α β : Type} [DecidableEq α]
    (l : List (α × β)) (k : α) (f : β → β) (h : alistLookup l k = none) :
    alistModify l k f = l := by
  induction l with
  | nil => rfl
  | cons p rest ih =>
    rcases p with ⟨a, b⟩
    simp only [alistLookup] at h
    by_cases ha : a = k
    · simp [ha] at h
    · rw [if_neg ha] at h
      simp [alistModify, ha, ih h]

theorem alistModify_last {α β : Type} [DecidableEq α]
    (l : List (α × β)) (k : α) (x : β) (f : β → β) (h : alistLookup l k = none) :
    alistModify (l ++ [(k, x)]) k f = l ++ [(k, f x)] := by
  induction l with
  | nil => simp [alistModify]
  | cons p rest ih =>
    rcases p with ⟨a, b⟩
    simp only [alistLookup] at h
    by_cases ha : a = k
    · simp [ha] at h
    · rw [if_neg ha] at h
      simp [alistModify, ha, ih h]

/-! ## Lemmas: stripping -/

theorem dropWhile_of_all_false {α : Type} (p : α → Bool) (l : List α)
    (h : ∀ c ∈ l, p c = false) : l.dropWhile p = l := by
  cases l with
  | nil => rfl
  | cons c t =>
    rw [List.dropWhile_cons, if_neg]
    rw [h c (by simp)]
    simp

theorem dropWhile_dropWhile {α : Type} (p : α → Bool) (l : List α) :
    (l.dropWhile p).dropWhile p = l.dropWhile p := by
  induction l with
  | nil => rfl
  | cons c t ih =>
    by_cases h : p c
    · simp [List.dropWhile_cons, h, ih]
    · simp [List.dropWhile_cons, h]

theorem dropTrail_append_takeWhile (l : List Char) :
    dropTrail l ++ (l.reverse.takeWhile isPySpace).reverse = l := by
  unfold dropTrail
  rw [← List.reverse_append, List.takeWhile_append_dropWhile, List.reverse_reverse]

theorem dropTrail_dropTrail (l : List Char) : dropTrail (dropTrail l) = dropTrail l := by
  unfold dropTrail
  rw [List.reverse_reverse, dropWhile_dropWhile]

theorem dropWhile_dropTrail (l : List Char) (h : l.dropWhile isPySpace = l) :
    (dropTrail l).dropWhile isPySpace = dropTrail l := by
  cases hdt : dropTrail l with
  | nil => rfl
  | cons c u =>
    have hl : c :: (u ++ (l.reverse.takeWhile isPySpace).reverse) = l := by
      have := dropTrail_append_takeWhile l
      rw [hdt] at this
      simpa using this
    have hc : ¬ isPySpace c = true := by
      have h0 := List.dropWhile_eq_self_iff.mp h
      rw [← hl] at h0
      simpa using h0 (by simp)
    rw [List.dropWhile_cons, if_neg hc]

theorem stripChars_idem (cs : List Char) : stripChars (stripChars cs) = stripChars cs := by
  unfold stripChars
  rw [dropWhile_dropTrail _ (dropWhile_dropWhile isPySpace cs), dropTrail_dropTrail]

theorem stripChars_of_nospace (cs : List Char) (h : ∀ c ∈ cs, isPySpace c = false) :
    stripChars cs = cs := by
  unfold stripChars dropTrail
  rw [dropWhile_of_all_false _ _ h,
    dropWhile_of_all_false _ _ (fun c hc => h c (List.mem_reverse.mp hc)),
    List.reverse_reverse]

theorem pyStrip_mk_of_nospace (cs : List Char) (h : ∀ c ∈ cs, isPySpace c = false) :
    pyStrip ⟨cs⟩ = ⟨cs⟩ := by
  unfold pyStrip
  rw [show (⟨cs⟩ : String).toList = cs from rfl, stripChars_of_nospace cs h]

/-! ## Lemmas: digits and integer round-trips -/

theorem isDig_elim {c : Char} (h : isDig c = true) :
    c = '0' ∨ c = '1' ∨ c = '2' ∨ c = '3' ∨ c = '4' ∨
    c = '5' ∨ c = '6' ∨ c = '7' ∨ c = '8' ∨ c = '9' := by
  simp only [isDig, Bool.or_eq_true, decide_eq_true_eq] at h
  tauto

theorem digit_not_space {c : Char} (h : isDig c = true) : isPySpace c = false := by
  rcases isDig_elim h with rfl | rfl | rfl | rfl | rfl | rfl | rfl | rfl | rfl | rfl <;> rfl

theorem digit_ne_dash {c : Char} (h : isDig c = true) : c ≠ '-' := by
  rcases isDig_elim h with rfl | rfl | rfl | rfl | rfl | rfl | rfl | rfl | rfl | rfl <;> decide

theorem digit_ne_plus {c : Char} (h : isDig c = true) : c ≠ '+' := by
  rcases isDig_elim h with rfl | rfl | rfl | rfl | rfl | rfl | rfl | rfl | rfl | rfl <;> decide

theorem digit_ne_underscore {c : Char} (h : isDig c = true) : c ≠ '_' := by
  rcases isDig_elim h with rfl | rfl | rfl | rfl | rfl | rfl | rfl | rfl | rfl | rfl <;> decide

theorem digit_toLower {c : Char} (h : isDig c = true) : c.toLower = c := by
  rcases isDig_elim h with rfl | rfl | rfl | rfl | rfl | rfl | rfl | rfl | rfl | rfl <;> rfl

theorem digit_toLower_ne_n {c : Char} (h : isDig c = true) : c.toLower ≠ 'n' := by
  rcases isDig_elim h with rfl | rfl | rfl | rfl | rfl | rfl | rfl | rfl | rfl | rfl <;> decide

theorem isDig_digitChar (k : Nat) : isDig (digitChar k) = true := by
  match k with
  | 0 | 1 | 2 | 3 | 4 | 5 | 6 | 7 | 8 => rfl
  | n + 9 => rfl

theorem charVal_digitChar {k : Nat} (h : k < 10) : charVal (digitChar k) = k := by
  interval_cases k <;> rfl

theorem natToDigitsAux_all_dig :
    ∀ fuel n, n < fuel → ∀ c ∈ natToDigitsAux fuel n, isDig c = true := by
  intro fuel
  induction fuel with
  | zero => intro n h; omega
  | succ f ih =>
    intro n h c hc
    by_cases h10 : n < 10
    · simp only [natToDigitsAux, if_pos h10, List.mem_singleton] at hc
      subst hc
      exact isDig_digitChar n
    · simp only [natToDigitsAux, if_neg h10, List.mem_append, List.mem_singleton] at hc
      rcases hc with hc | hc
      · have hd : n / 10 < n := Nat.div_lt_self (by omega) (by omega)
        exact ih (n / 10) (by omega) c hc
      · subst hc
        exact isDig_digitChar (n % 10)

theorem natToDigits_all_dig (n : Nat) : ∀ c ∈ natToDigits n, isDig c = true :=
  natToDigitsAux_all_dig (n + 1) n (Nat.lt_succ_self n)

theorem natToDigits_ne_nil (n : Nat) : natToDigits n ≠ [] := by
  unfold natToDigits
  simp only [natToDigitsAux]
  split <;> simp

theorem foldl_digits_shift (ds : List Char) (acc : Nat) :
    ds.foldl (fun a c => 10 * a + charVal c) acc
      = acc * 10 ^ ds.length + ds.foldl (fun a c => 10 * a + charVal c) 0 := by
  induction ds generalizing acc with
  | nil => simp
  | cons c t ih =>
    simp only [List.foldl_cons, List.length_cons]
    rw [ih (10 * acc + charVal c), ih (10 * 0 + charVal c)]
    ring

theorem foldl_natToDigitsAux :
    ∀ fuel n, n < fuel →
      (natToDigitsAux fuel n).foldl (fun a c => 10 * a + charVal c) 0 = n := by
  intro fuel
  induction fuel with
  | zero => intro n h; omega
  | succ f ih =>
    intro n h
    by_cases h10 : n < 10
    · simp only [natToDigitsAux, if_pos h10, List.foldl_cons, List.foldl_nil]
      rw [charVal_digitChar h10]
      omega
    · have hd : n / 10 < n := Nat.div_lt_self (by omega) (by omega)
      simp only [natToDigitsAux, if_neg h10]
      rw [List.foldl_append, ih (n / 10) (by omega)]
      simp only [List.foldl_cons, List.foldl_nil]
      rw [charVal_digitChar (Nat.mod_lt n (by omega))]
      omega

theorem foldl_natToDigits (n : Nat) :
    (natToDigits n).foldl (fun a c => 10 * a + charVal c) 0 = n :=
  foldl_natToDigitsAux (n + 1) n (Nat.lt_succ_self n)

theorem goDigits_all_dig (ds : List Char) (acc : Nat)
    (h : ∀ c ∈ ds, isDig c = true) :
    goDigits false acc ds = some (ds.foldl (fun a c => 10 * a + charVal c) acc) := by
  induction ds generalizing acc with
  | nil => rfl
  | cons c t ih =>
    have hc := h c (by simp)
    rw [show goDigits false acc (c :: t)
        = if isDig c then goDigits false (10 * acc + charVal c) t
          else if c = '_' && !false then goDigits true acc t
          else none from rfl,
      if_pos hc, List.foldl_cons]
    exact ih (10 * acc + charVal c) (fun d hd => h d (by simp [hd]))

theorem parseDigitsU_digits (ds : List Char) (h : ∀ c ∈ ds, isDig c = true)
    (hne : ds ≠ []) :
    parseDigitsU ds = some (ds.foldl (fun a c => 10 * a + charVal c) 0) := by
  cases ds with
  | nil => exact absurd rfl hne
  | cons c t =>
    have hc := h c (by simp)
    rw [show parseDigitsU (c :: t)
        = if isDig c then goDigits false (charVal c) t else none from rfl,
      if_pos hc,
      goDigits_all_dig t (charVal c) (fun d hd => h d (by simp [hd]))]
    congr 1
    simp only [List.foldl_cons]
    congr 1
    omega

theorem stripChars_natToDigits (n : Nat) : stripChars (natToDigits n) = natToDigits n :=
  stripChars_of_nospace _ (fun c hc => digit_not_space (natToDigits_all_dig n c hc))

theorem pyIntChars_digits (ds : List Char) (h : ∀ c ∈ ds, isDig c = true)
    (hne : ds ≠ []) :
    pyIntChars ds = some ((ds.foldl (fun a c => 10 * a + charVal c) 0 : Nat) : Int) := by
  cases ds with
  | nil => exact absurd rfl hne
  | cons c t =>
    have hc := h c (by simp)
    rw [show pyIntChars (c :: t)
        = if c = '-' then (parseDigitsU t).map (fun n => -(n : Int))
          else if c = '+' then (parseDigitsU t).map (fun n => (n : Int))
          else (parseDigitsU (c :: t)).map (fun n => (n : Int)) from rfl,
      if_neg (digit_ne_dash hc), if_neg (digit_ne_plus hc),
      parseDigitsU_digits (c :: t) h (by simp)]
    rfl

theorem pyInt?_natStr (n : Nat) : pyInt? (natStr n) = some (n : Int) := by
  unfold pyInt? natStr
  rw [show (⟨natToDigits n⟩ : String).toList = natToDigits n from rfl,
    stripChars_natToDigits n,
    pyIntChars_digits _ (natToDigits_all_dig n) (natToDigits_ne_nil n),
    foldl_natToDigits]

theorem natStr_inj {a b : Nat} (h : natStr a = natStr b) : a = b := by
  have ha := pyInt?_natStr a
  rw [h, pyInt?_natStr b] at ha
  have h2 : ((a : Int)) = (b : Int) := by
    injection ha with hv
    omega
  omega

theorem pyInt?_intStr (r : Int) : pyInt? (intStr r) = some r := by
  unfold intStr
  by_cases hr : r < 0
  · rw [if_pos hr]
    have hall : ∀ c ∈ '-' :: natToDigits r.natAbs, isPySpace c = false := by
      intro c hc
      rcases List.mem_cons.mp hc with rfl | hc
      · rfl
      · exact digit_not_space (natToDigits_all_dig r.natAbs c hc)
    unfold pyInt?
    rw [show (⟨'-' :: natToDigits r.natAbs⟩ : String).toList
        = '-' :: natToDigits r.natAbs from rfl,
      stripChars_of_nospace _ hall,
      show pyIntChars ('-' :: natToDigits r.natAbs)
        = if '-' = '-' then (parseDigitsU (natToDigits r.natAbs)).map (fun n => -(n : Int))
          else if '-' = '+' then (parseDigitsU (natToDigits r.natAbs)).map (fun n => (n : Int))
          else (parseDigitsU ('-' :: natToDigits r.natAbs)).map (fun n => (n : Int)) from rfl,
      if_pos rfl,
      parseDigitsU_digits _ (natToDigits_all_dig r.natAbs) (natToDigits_ne_nil _),
      foldl_natToDigits]
    show some (-((r.natAbs : Nat) : Int)) = some r
    congr 1
    omega
  · rw [if_neg hr]
    have := pyInt?_natStr r.natAbs
    unfold natStr at this
    rw [this]
    congr 1
    omega

theorem pyStrip_intStr (r : Int) : pyStrip (intStr r) = intStr r := by
  unfold intStr
  by_cases hr : r < 0
  · rw [if_pos hr]
    refine pyStrip_mk_of_nospace _ (fun c hc => ?_)
    rcases List.mem_cons.mp hc with rfl | hc
    · rfl
    · exact digit_not_space (natToDigits_all_dig r.natAbs c hc)
  · rw [if_neg hr]
    exact pyStrip_mk_of_nospace _
      (fun c hc => digit_not_space (natToDigits_all_dig r.natAbs c hc))

theorem intStr_ne_empty (r : Int) : intStr r ≠ "" := by
  unfold intStr
  intro h
  by_cases hr : r < 0
  · rw [if_pos hr] at h
    exact absurd (congrArg String.toList h) (by simp)
  · rw [if_neg hr] at h
    have : natToDigits r.natAbs = [] := congrArg String.toList h
    exact natToDigits_ne_nil _ this

theorem pyLower_intStr_ne_none (r : Int) : pyLower (intStr r) ≠ "none" := by
  unfold pyLower intStr
  intro h
  by_cases hr : r < 0
  · rw [if_pos hr] at h
    have h2 : ('-' :: natToDigits r.natAbs).map Char.toLower = "none".toList :=
      congrArg String.toList h
    simp at h2
  · rw [if_neg hr] at h
    have h2 : (natToDigits r.natAbs).map Char.toLower = "none".toList :=
      congrArg String.toList h
    cases hcs : natToDigits r.natAbs with
    | nil => exact natToDigits_ne_nil _ hcs
    | cons c t =>
      rw [hcs] at h2
      have hc : isDig c = true := natToDigits_all_dig r.natAbs c (by rw [hcs]; simp)
      have : c.toLower = 'n' := by
        have := congrArg List.head? h2
        simpa using this
      exact digit_toLower_ne_n hc this

theorem rank_of_cell_intStr (r : Int) : rank_of_cell (intStr r) = some r := by
  unfold rank_of_cell
  rw [if_pos (by simp [intStr_ne_empty r, pyLower_intStr_ne_none r])]
  exact pyInt?_intStr r

/-- Resolution hits `by_url` first. -/
theorem resolveRank_by_url_hit (bi : List (PyKey × Int)) (bu : List (String × PyVal))
    (idx : Nat) (url : String) (v : PyVal) (h : alistLookup bu url = some v) :
    resolveRank ⟨bi, bu⟩ idx url = some v := by
  unfold resolveRank
  rw [show (⟨bi, bu⟩ : RankEntry).by_url = bu from rfl, h]

/-! ## Lemmas: the save path -/

theorem save_ranking_applies (sess : Session) (pr_id : String)
    (u : String × PyVal) (us : List (String × PyVal))
    (hpr : pr_id ≠ "") (hmem : (alistLookup sess.prs pr_id).isSome) :
    save_ranking sess pr_id (u :: us)
      = ⟨sess.prs,
          alistInsert sess.rankings pr_id
            (saveRanksEntry (alistLookup sess.rankings pr_id) (u :: us))⟩ := by
  unfold save_ranking
  rw [if_neg (by simp [hpr]), if_neg (by
    intro hno
    rw [Option.isNone_iff_eq_none] at hno
    rw [hno] at hmem
    simp at hmem)]

theorem saveRanksEntry_single_url (existing : Option RankEntry) (url : String)
    (v : PyVal) (hurl : pyInt? url = none) :
    saveRanksEntry existing [(url, v)]
      = ⟨[], alistInsert (existing.getD emptyRankEntry).by_url url v⟩ := by
  unfold saveRanksEntry splitRankUpdates
  rw [show splitRankUpdatesAux ([], []) [(url, v)]
      = (match pyInt? url with
         | some ik =>
           match pyIntOfVal v with
           | some iv => splitRankUpdatesAux (alistInsert [] (PyKey.ik ik) iv, []) []
           | none => splitRankUpdatesAux ([], alistInsert [] url v) []
         | none => splitRankUpdatesAux ([], alistInsert [] url v) []) from rfl,
    hurl]
  rfl

/-! ## Claim theorems -/

/-- C3: URL-keyed saves accumulate in `by_url`: after saving `A ↦ vA`
then `B ↦ vB` for the same PR (with `A`, `B` distinct non-integer keys),
both URLs resolve to their saved ranks, at every link ordinal, regardless
of the prior state of the store — a save only adds or overwrites the URLs
it mentions. -/
theorem C3_by_url_saves_accumulate (sess : Session) (pr_id A B : String)
    (vA vB : Int)
    (hA : pyInt? A = none) (hB : pyInt? B = none) (hAB : A ≠ B)
    (hpr : pr_id ≠ "") (hmem : (alistLookup sess.prs pr_id).isSome) :
    ∀ i j : Nat,
      resolveRank ((alistLookup (save_ranking (save_ranking sess pr_id
          [(A, PyVal.vint vA)]) pr_id [(B, PyVal.vint vB)]).rankings pr_id).getD
          emptyRankEntry) i A = some (PyVal.vint vA)
      ∧ resolveRank ((alistLookup (save_ranking (save_ranking sess pr_id
          [(A, PyVal.vint vA)]) pr_id [(B, PyVal.vint vB)]).rankings pr_id).getD
          emptyRankEntry) j B = some (PyVal.vint vB) := by
  intro i j
  rw [save_ranking_applies sess pr_id _ _ hpr hmem]
  rw [save_ranking_applies
    ⟨sess.prs, alistInsert sess.rankings pr_id
      (saveRanksEntry (alistLookup sess.rankings pr_id) [(A, PyVal.vint vA)])⟩
    pr_id _ _ hpr hmem]
  simp only [alistLookup_insert_self, Option.getD_some]
  rw [saveRanksEntry_single_url _ A (PyVal.vint vA) hA]
  rw [saveRanksEntry_single_url _ B (PyVal.vint vB) hB]
  simp only [Option.getD_some]
  refine ⟨?_, ?_⟩
  · exact resolveRank_by_url_hit _ _ i A _
      (by rw [alistLookup_insert_ne _ B A _ (fun hh => hAB hh.symm),
        alistLookup_insert_self])
  · exact resolveRank_by_url_hit _ _ j B _ (alistLookup_insert_self _ B _)

/-- Closed witness for C3 at a concrete session. -/
theorem C3_by_url_saves_accumulate_witness :
    let pr : PR := ⟨"u", "p", "r", "t", "", "", CellV.cnat 0, []⟩
    let sess : Session := ⟨[("p", pr)], []⟩
    resolveRank ((alistLookup (save_ranking (save_ranking sess "p"
        [("http://a", PyVal.vint 1)]) "p" [("http://b", PyVal.vint 2)]).rankings
        "p").getD emptyRankEntry) 0 "http://a" = some (PyVal.vint 1)
    ∧ resolveRank ((alistLookup (save_ranking (save_ranking sess "p"
        [("http://a", PyVal.vint 1)]) "p" [("http://b", PyVal.vint 2)]).rankings
        "p").getD emptyRankEntry) 1 "http://b" = some (PyVal.vint 2) := by
  intro pr sess
  exact C3_by_url_saves_accumulate sess "p" "http://a" "http://b" 1 2
    (by rfl) (by rfl) (by decide) (by decide) (by rfl) 0 1

theorem saveRanksEntry_single_int (existing : Option RankEntry) (k : String)
    (ik iv : Int) (v : PyVal) (hk : pyInt? k = some ik) (hv : pyIntOfVal v = some iv) :
    saveRanksEntry existing [(k, v)]
      = ⟨[(PyKey.ik ik, iv)], (existing.getD emptyRankEntry).by_url⟩ := by
  unfold saveRanksEntry splitRankUpdates
  rw [show splitRankUpdatesAux ([], []) [(k, v)]
      = (match pyInt? k with
         | some ik =>
           match pyIntOfVal v with
           | some iv => splitRankUpdatesAux (alistInsert [] (PyKey.ik ik) iv, []) []
           | none => splitRankUpdatesAux ([], alistInsert [] k v) []
         | none => splitRankUpdatesAux ([], alistInsert [] k v) []) from rfl,
    hk, hv]
  rfl

theorem resolveRank_empty_url_none (bi : List (PyKey × Int)) (idx : Nat) (u : String)
    (h : lookupIndexRank bi idx = none) :
    resolveRank ⟨bi, []⟩ idx u = none := by
  unfold resolveRank
  rw [show alistLookup ([] : List (String × PyVal)) u = none from rfl, h]
  rfl

theorem resolveRank_empty_url_some (bi : List (PyKey × Int)) (idx : Nat) (u : String)
    (n : Int) (h : lookupIndexRank bi idx = some n) :
    resolveRank ⟨bi, []⟩ idx u = some (PyVal.vint n) := by
  unfold resolveRank
  rw [show alistLookup ([] : List (String × PyVal)) u = none from rfl, h]
  rfl

/-- C4: each interactive save replaces the PR's `by_index` map wholesale:
starting from a PR with no rank entry, saving `"0" ↦ 5` and then
`"1" ↦ 7` leaves index 0 resolving to nothing (for any URL) while index 1
resolves to 7. -/
theorem C4_by_index_replaced (sess : Session) (pr_id : String)
    (hpr : pr_id ≠ "") (hmem : (alistLookup sess.prs pr_id).isSome)
    (hfresh : alistLookup sess.rankings pr_id = none) :
    ∀ u u' : String,
      resolveRank ((alistLookup (save_ranking (save_ranking sess pr_id
          [("0", PyVal.vint 5)]) pr_id [("1", PyVal.vint 7)]).rankings pr_id).getD
          emptyRankEntry) 0 u = none
      ∧ resolveRank ((alistLookup (save_ranking (save_ranking sess pr_id
          [("0", PyVal.vint 5)]) pr_id [("1", PyVal.vint 7)]).rankings pr_id).getD
          emptyRankEntry) 1 u' = some (PyVal.vint 7) := by
  intro u u'
  rw [save_ranking_applies sess pr_id _ _ hpr hmem]
  rw [save_ranking_applies
    ⟨sess.prs, alistInsert sess.rankings pr_id
      (saveRanksEntry (alistLookup sess.rankings pr_id) [("0", PyVal.vint 5)])⟩
    pr_id _ _ hpr hmem]
  simp only [alistLookup_insert_self, Option.getD_some]
  rw [hfresh, saveRanksEntry_single_int none "0" 0 5 (PyVal.vint 5) (by rfl) (by rfl)]
  rw [saveRanksEntry_single_int _ "1" 1 7 (PyVal.vint 7) (by rfl) (by rfl)]
  simp only [Option.getD_some]
  exact ⟨resolveRank_empty_url_none _ 0 u (by decide),
    resolveRank_empty_url_some _ 1 u' 7 (by decide)⟩

/-- Closed witness for C4 at a concrete session. -/
theorem C4_by_index_replaced_witness :
    let sess : Session := ⟨[("p", ⟨"u", "p", "r", "t", "", "", CellV.cnat 0, []⟩)], []⟩
    resolveRank ((alistLookup (save_ranking (save_ranking sess "p"
        [("0", PyVal.vint 5)]) "p" [("1", PyVal.vint 7)]).rankings "p").getD
        emptyRankEntry) 0 "http://a" = none
    ∧ resolveRank ((alistLookup (save_ranking (save_ranking sess "p"
        [("0", PyVal.vint 5)]) "p" [("1", PyVal.vint 7)]).rankings "p").getD
        emptyRankEntry) 1 "http://a" = some (PyVal.vint 7) := by
  intro sess
  exact C4_by_index_replaced sess "p" (by decide) (by rfl) (by rfl) "http://a" "http://a"

/-- The integer carried by a `vint` rank value (the shape required of the
values of a well-typed rank-update mapping). -/
def rankValInt : PyVal → Int
  | .vint n => n
  | _ => 0

theorem splitRankUpdatesAux_int_values (updates : List (String × PyVal))
    (bi : List (PyKey × Int)) (bu : List (String × PyVal))
    (hv : ∀ p ∈ updates, ∃ n : Int, p.2 = PyVal.vint n) :
    splitRankUpdatesAux (bi, bu) updates
      = ((updates.filterMap (fun p => (pyInt? p.1).map
            (fun ik => (PyKey.ik ik, rankValInt p.2)))).foldl
            (fun acc q => alistInsert acc q.1 q.2) bi,
         (updates.filter (fun p => (pyInt? p.1).isNone)).foldl
            (fun acc q => alistInsert acc q.1 q.2) bu) := by
  induction updates generalizing bi bu with
  | nil => rfl
  | cons p rest ih =>
    obtain ⟨n, hn⟩ := hv p (by simp)
    rcases p with ⟨pk, pv⟩
    simp only at hn
    subst hn
    rw [show splitRankUpdatesAux (bi, bu) ((pk, PyVal.vint n) :: rest)
        = (match pyInt? pk with
           | some ik =>
             match pyIntOfVal (PyVal.vint n) with
             | some iv => splitRankUpdatesAux
                 (alistInsert bi (PyKey.ik ik) iv, bu) rest
             | none => splitRankUpdatesAux
                 (bi, alistInsert bu pk (PyVal.vint n)) rest
           | none => splitRankUpdatesAux
               (bi, alistInsert bu pk (PyVal.vint n)) rest) from rfl]
    cases hk : pyInt? pk with
    | some ik =>
      simp only [List.filterMap_cons, List.filter_cons, hk, Option.map_some',
        Option.isNone_some, Bool.false_eq_true, if_false, List.foldl_cons]
      rw [show pyIntOfVal (PyVal.vint n) = some n from rfl]
      exact ih _ _ (fun q hq => hv q (by simp [hq]))
    | none =>
      simp only [List.filterMap_cons, List.filter_cons, hk, Option.map_none',
        Option.isNone_none, if_true, List.foldl_cons]
      exact ih _ _ (fun q hq => hv q (by simp [hq]))

/-- C8: for a save whose rank-update values are integers (the type the
interface prescribes for ranks), the destination map of each pair is
decided by its key alone: every key parsing as an integer is written to
`by_index` with its value, and every other pair is written — key and
value verbatim — into the URL-keyed map, which the save then overlays, in
order, onto the PR's existing `by_url`. -/
theorem C8_destination_by_key (existing : Option RankEntry)
    (updates : List (String × PyVal))
    (hv : ∀ p ∈ updates, ∃ n : Int, p.2 = PyVal.vint n) :
    (saveRanksEntry existing updates).by_index
      = (updates.filterMap (fun p => (pyInt? p.1).map
          (fun ik => (PyKey.ik ik, rankValInt p.2)))).foldl
          (fun acc q => alistInsert acc q.1 q.2) []
    ∧ (saveRanksEntry existing updates).by_url
      = ((updates.filter (fun p => (pyInt? p.1).isNone)).foldl
          (fun acc q => alistInsert acc q.1 q.2) []).foldl
          (fun acc q => alistInsert acc q.1 q.2)
          (existing.getD emptyRankEntry).by_url := by
  unfold saveRanksEntry splitRankUpdates
  rw [splitRankUpdatesAux_int_values updates [] [] hv]
  exact ⟨rfl, rfl⟩

/-- Closed witness for C8 at a concrete mapping mixing an index key and a
URL key. -/
theorem C8_destination_by_key_witness :
    (saveRanksEntry none [("0", PyVal.vint 5), ("http://a", PyVal.vint 3)]).by_index
      = ([("0", PyVal.vint 5), ("http://a", PyVal.vint 3)].filterMap
          (fun p => (pyInt? p.1).map (fun ik => (PyKey.ik ik, rankValInt p.2)))).foldl
          (fun acc q => alistInsert acc q.1 q.2) []
    ∧ (saveRanksEntry none [("0", PyVal.vint 5), ("http://a", PyVal.vint 3)]).by_url
      = (([("0", PyVal.vint 5), ("http://a", PyVal.vint 3)].filter
          (fun p => (pyInt? p.1).isNone)).foldl
          (fun acc q => alistInsert acc q.1 q.2) []).foldl
          (fun acc q => alistInsert acc q.1 q.2)
          ((none : Option RankEntry).getD emptyRankEntry).by_url :=
  C8_destination_by_key none [("0", PyVal.vint 5), ("http://a", PyVal.vint 3)]
    (by intro p hp
        rcases List.mem_cons.mp hp with rfl | hp2
        · exact ⟨5, rfl⟩
        · rcases List.mem_cons.mp hp2 with rfl | hp3
          · exact ⟨3, rfl⟩
          · simp at hp3)

/-- C10: a load or load-ranking operation that fails leaves the session
untouched: the route only assigns into `current_data` after the whole file
has been parsed, so a failed ingest never partially replaces the PR model
or the rank store. -/
theorem C10_failed_load_preserves_session :
    (∀ (sess : Session) (header : List String) (rows : List (List String))
        (e : List String), load_csv_data header rows = Except.error e →
        load_data sess header rows = sess)
    ∧ (∀ (sess : Session) (header : List String) (rows : List (List String))
        (e : String), load_ranking_csv_data header rows = Except.error e →
        load_ranking sess header rows = sess) := by
  constructor
  · intro sess header rows e h
    unfold load_data
    rw [h]
  · intro sess header rows e h
    unfold load_ranking
    rw [h]

/-- Closed witness for C10: loading an empty (column-free) file fails and
leaves a nonempty session exactly as it was. -/
theorem C10_failed_load_preserves_session_witness :
    load_data ⟨[("p", ⟨"u", "p", "r", "t", "", "", CellV.cnat 0, []⟩)],
        [("p", ⟨[(PyKey.ik 0, 1)], []⟩)]⟩ [] []
      = ⟨[("p", ⟨"u", "p", "r", "t", "", "", CellV.cnat 0, []⟩)],
        [("p", ⟨[(PyKey.ik 0, 1)], []⟩)]⟩
    ∧ load_ranking ⟨[("p", ⟨"u", "p", "r", "t", "", "", CellV.cnat 0, []⟩)],
        [("p", ⟨[(PyKey.ik 0, 1)], []⟩)]⟩ [] []
      = ⟨[("p", ⟨"u", "p", "r", "t", "", "", CellV.cnat 0, []⟩)],
        [("p", ⟨[(PyKey.ik 0, 1)], []⟩)]⟩ :=
  ⟨C10_failed_load_preserves_session.1 _ [] [] ["uid", "pr_link", "repo", "pr_title"]
      (by rfl),
   C10_failed_load_preserves_session.2 _ [] []
      "CSV must contain either (link, label_word, link_index), (links, ranks), or (link_url, rank) columns"
      (by rfl)⟩

/-- C1: every read/export path resolves a link's rank by the same rule —
`by_url[u]` first, then `by_index[i]` probing the integer key and its
string form, and unresolved (JSON `null`, CSV empty cell) when both are
absent; and after a save recording a URL-keyed rank, resolution at that
URL returns the saved value (URL precedence over any index-keyed rank). -/
theorem C1_resolution_rule :
    (∀ (rk : RankEntry) (idx : Nat) (url : String),
        exportJsonRank rk idx url = resolveRank rk idx url)
    ∧ (∀ (rk : RankEntry) (idx : Nat) (url : String),
        exportCsvRankCell rk idx url =
          (match resolveRank rk idx url with
           | some v => csvCellOfRank v
           | none => ""))
    ∧ (∀ (rk : RankEntry) (idx : Nat) (link : Link),
        getPrLinkRank (some rk) idx link =
          (match resolveRank rk idx link.link_url with
           | some v => some v
           | none => link.rank.map PyVal.vint))
    ∧ (∀ (rk : RankEntry) (idx : Nat) (url : String) (v : PyVal),
        alistLookup rk.by_url url = some v → resolveRank rk idx url = some v)
    ∧ (∀ (rk : RankEntry) (idx : Nat) (url : String),
        alistLookup rk.by_url url = none →
          resolveRank rk idx url = (lookupIndexRank rk.by_index idx).map PyVal.vint)
    ∧ (∀ (bi : List (PyKey × Int)) (idx : Nat),
        lookupIndexRank bi idx =
          (match alistLookup bi (PyKey.ik (idx : Int)) with
           | some v => some v
           | none => alistLookup bi (PyKey.sk (natStr idx))))
    ∧ (∀ (rk : RankEntry) (idx : Nat) (url : String),
        alistLookup rk.by_url url = none → lookupIndexRank rk.by_index idx = none →
          resolveRank rk idx url = none)
    ∧ (∀ (sess : Session) (pr_id url : String) (v : Int) (idx : Nat),
        pr_id ≠ "" → (alistLookup sess.prs pr_id).isSome → pyInt? url = none →
          resolveRank ((alistLookup (save_ranking sess pr_id
              [(url, PyVal.vint v)]).rankings pr_id).getD emptyRankEntry) idx url
            = some (PyVal.vint v)) := by
  refine ⟨?_, ?_, ?_, ?_, ?_, ?_, ?_, ?_⟩
  · intro rk idx url
    rfl
  · intro rk idx url
    unfold exportCsvRankCell resolveRank
    cases hu : alistLookup rk.by_url url with
    | some v => rfl
    | none =>
      cases hi : lookupIndexRank rk.by_index idx with
      | some n =>
        show intStr n = csvCellOfRank (PyVal.vint n)
        simp [csvCellOfRank, pyStr, pyRepr]
      | none => rfl
  · intro rk idx link
    simp only [getPrLinkRank]
    unfold resolveRank lookupIndexRank
    cases hu : alistLookup rk.by_url link.link_url with
    | some v => rfl
    | none =>
      cases hi : alistLookup rk.by_index (PyKey.ik (idx : Int)) with
      | some n => rfl
      | none =>
        cases hs : alistLookup rk.by_index (PyKey.sk (natStr idx)) with
        | some n => rfl
        | none => rfl
  · intro rk idx url v h
    unfold resolveRank
    rw [h]
  · intro rk idx url h
    unfold resolveRank
    rw [h]
  · intro bi idx
    unfold lookupIndexRank
    rfl
  · intro rk idx url h1 h2
    unfold resolveRank
    rw [h1, h2]
    rfl
  · intro sess pr_id url v idx hpr hmem hurl
    rw [save_ranking_applies sess pr_id _ _ hpr hmem]
    simp only [alistLookup_insert_self, Option.getD_some]
    rw [saveRanksEntry_single_url _ url (PyVal.vint v) hurl]
    exact resolveRank_by_url_hit _ _ idx url _ (alistLookup_insert_self _ url _)

/-- Closed witness for C1: the save-precedence conjunct and the by-URL
precedence conjunct applied at concrete inputs where an index-keyed rank
is also present. -/
theorem C1_resolution_rule_witness :
    resolveRank ⟨[(PyKey.ik 0, 9)], [("http://a", PyVal.vint 4)]⟩ 0 "http://a"
      = some (PyVal.vint 4)
    ∧ resolveRank ((alistLookup (save_ranking
        ⟨[("p", ⟨"u", "p", "r", "t", "", "", CellV.cnat 1,
            [⟨"http://a", "Link 1", "", none⟩]⟩)],
          [("p", ⟨[(PyKey.ik 0, 9)], []⟩)]⟩ "p"
        [("http://a", PyVal.vint 4)]).rankings "p").getD emptyRankEntry) 0 "http://a"
      = some (PyVal.vint 4) :=
  ⟨C1_resolution_rule.2.2.2.1 ⟨[(PyKey.ik 0, 9)], [("http://a", PyVal.vint 4)]⟩ 0
      "http://a" (PyVal.vint 4) (by rfl),
   C1_resolution_rule.2.2.2.2.2.2.2 _ "p" "http://a" 4 0 (by decide) (by rfl) (by rfl)⟩

/-- C6 counterexample: the legacy one-row-per-link column set
(`pr_id`, `pr_title`, `pr_url`, `link_url`, `link_text`) does not select a
per-row ingestion mode — the data-load flow rejects it with a schema error
naming the required columns it lacks. -/
theorem C6_counterexample :
    load_csv_data ["pr_id", "pr_title", "pr_url", "link_url", "link_text"]
        [["1", "t", "u", "http://a", "x"]]
      = Except.error ["uid", "pr_link", "repo"] := by rfl

/-- C6 amended: the data-load flow has no legacy per-row mode; it succeeds
exactly when the required identity columns (`uid`, `pr_link`, `repo`,
`pr_title`) are all present, and otherwise fails with a schema error
listing precisely the missing required columns (the model fixes the
declaration order; CPython renders the set in unspecified order). -/
theorem C6_schema_error_on_missing_columns (header : List String)
    (rows : List (List String)) :
    ((∃ prs, load_csv_data header rows = Except.ok prs)
      ↔ ∀ c ∈ requiredColumns, header.contains c = true)
    ∧ (∀ e, load_csv_data header rows = Except.error e →
        e = requiredColumns.filter (fun c => !header.contains c) ∧ e ≠ []) := by
  unfold load_csv_data
  by_cases h : (requiredColumns.filter (fun c => !header.contains c)).isEmpty = true
  · rw [if_pos h]
    refine ⟨⟨fun _ c hc => ?_, fun _ => ⟨_, rfl⟩⟩, fun e he => absurd he (by simp)⟩
    have h2 : requiredColumns.filter (fun c => !header.contains c) = [] := by
      cases hx : requiredColumns.filter (fun c => !header.contains c) with
      | nil => rfl
      | cons a t => rw [hx] at h; simp [List.isEmpty] at h
    have h3 := List.filter_eq_nil_iff.mp h2 c hc
    simpa using h3
  · rw [if_neg h]
    refine ⟨⟨fun hex => ?_, fun hall => ?_⟩, fun e he => ?_⟩
    · obtain ⟨prs, hp⟩ := hex
      exact absurd hp (by simp)
    · exfalso
      apply h
      have h2 : requiredColumns.filter (fun c => !header.contains c) = [] := by
        apply List.filter_eq_nil_iff.mpr
        intro c hc
        rw [hall c hc]
        simp
      rw [h2]
      rfl
    · injection he with he2
      refine ⟨he2.symm, ?_⟩
      rw [← he2]
      intro hnil
      apply h
      rw [hnil]
      rfl

/-- C5 counterexample: two rows sharing `pr_link == "p"`; the claim says
the second row's link is appended, but the record keeps only the first
row's link (and first row's metadata). -/
theorem C5_counterexample :
    (load_csv_data ["uid", "pr_link", "repo", "pr_title", "link"]
        [["u", "p", "r", "t", "http://a"], ["u2", "p", "r2", "t2", "http://b"]]).map
      (fun prs => prs.map (fun q => (q.1, q.2.uid, q.2.links.map Link.link_url)))
      = Except.ok [("p", "u", ["http://a"])] := by rfl

/-- C5 amended: in the data-load flow a row whose `pr_link` key is already
present contributes nothing at all — neither its metadata nor its links —
so appending such a row to an input leaves the loaded model unchanged. -/
theorem C5_duplicate_key_rows_ignored (header : List String)
    (rows : List (List String)) (row : List String) (prs : List (String × PR))
    (hok : load_csv_data header rows = Except.ok prs)
    (hmem : (alistLookup prs (getCell header row "pr_link" "")).isSome) :
    load_csv_data header (rows ++ [row]) = Except.ok prs := by
  unfold load_csv_data at hok ⊢
  by_cases h : (requiredColumns.filter (fun c => !header.contains c)).isEmpty = true
  · rw [if_pos h] at hok ⊢
    injection hok with hok2
    rw [List.foldl_append]
    simp only [List.foldl_cons, List.foldl_nil]
    rw [hok2]
    congr 1
    unfold load_csv_row_step
    rw [if_pos hmem]
  · rw [if_neg h] at hok
    exact absurd hok (by simp)

/-- Closed witness for C5 at a concrete input: re-appending a row with an
already-seen key leaves the result unchanged. -/
theorem C5_duplicate_key_rows_ignored_witness :
    load_csv_data ["uid", "pr_link", "repo", "pr_title", "link"]
        ([["u", "p", "r", "t", "http://a"]] ++ [["u2", "p", "r2", "t2", "http://b"]])
      = load_csv_data ["uid", "pr_link", "repo", "pr_title", "link"]
        [["u", "p", "r", "t", "http://a"]] := by
  cases hok : load_csv_data ["uid", "pr_link", "repo", "pr_title", "link"]
      [["u", "p", "r", "t", "http://a"]] with
  | error e => exact absurd hok (by rw [show load_csv_data
      ["uid", "pr_link", "repo", "pr_title", "link"] [["u", "p", "r", "t", "http://a"]]
      = Except.ok (load_csv_data ["uid", "pr_link", "repo", "pr_title", "link"]
        [["u", "p", "r", "t", "http://a"]]).toOption.get! from rfl]; simp)
  | ok prs =>
    refine C5_duplicate_key_rows_ignored _ _ _ prs hok ?_
    have hprs : prs = (Except.ok prs : Except (List String) _).toOption.get! := rfl
    rw [hprs, ← hok]
    rfl

/-! ## Lemmas: comma splitting -/

theorem splitCommaAux_no_comma (cs : List Char) :
    ∀ cur, ',' ∉ cs → splitCommaAux cur cs = [cur.reverse ++ cs] := by
  induction cs with
  | nil => intro cur _; simp [splitCommaAux]
  | cons c t ih =>
    intro cur h
    have hc : ¬ c = ',' := fun hh => h (by rw [hh]; simp)
    have ht : ',' ∉ t := fun hh => h (by simp [hh])
    rw [show splitCommaAux cur (c :: t)
        = (if c = ',' then cur.reverse :: splitCommaAux [] t
           else splitCommaAux (c :: cur) t) from rfl,
      if_neg hc, ih (c :: cur) ht]
    simp

theorem splitComma_no_comma (cs : List Char) (h : ',' ∉ cs) :
    splitComma cs = [cs] := by
  unfold splitComma
  rw [splitCommaAux_no_comma cs [] h]
  rfl

/-- C7 counterexample: an input on which both the JSON and the literal
parses fail but which contains a comma decodes to the comma-split tokens —
two bare URLs here, not the single-element list the claim states. -/
theorem C7_counterexample :
    jsonParse "[http://a,http://b" = none
    ∧ literalParse "[http://a,http://b" = none
    ∧ pyStrip "[http://a,http://b" = "[http://a,http://b"
    ∧ parseLinksCell "[http://a,http://b"
        = [PyVal.vstr "[http://a", PyVal.vstr "http://b"]
    ∧ (parseLinksCell "[http://a,http://b").length ≠ 1 :=
  ⟨rfl, rfl, rfl, rfl, by decide⟩

/-- C7 amended: decoding a link-list cell never raises (the decoder is a
total function); empty or whitespace-only input yields the empty
sequence; and when both the JSON parse and the literal parse fail on a
non-empty stripped cell, the result is the list of comma-split,
whitespace-trimmed, non-empty tokens, each a bare-URL entry — a
single-element list containing the whole trimmed string exactly when the
string contains no comma. -/
theorem C7_decoder_fallback (s : String) :
    (pyStrip s = "" → parseLinksCell (pyStrip s) = [])
    ∧ (pyStrip s ≠ "" → jsonParse (pyStrip s) = none →
        literalParse (pyStrip s) = none →
        parseLinksCell (pyStrip s) = commaTokens (pyStrip s))
    ∧ (pyStrip s ≠ "" → jsonParse (pyStrip s) = none →
        literalParse (pyStrip s) = none → ',' ∉ (pyStrip s).toList →
        parseLinksCell (pyStrip s) = [PyVal.vstr (pyStrip s)]) := by
  refine ⟨?_, ?_, ?_⟩
  · intro h
    unfold parseLinksCell
    rw [if_pos h]
  · intro h hj hl
    unfold parseLinksCell
    rw [if_neg h, hj, hl]
  · intro h hj hl hc
    unfold parseLinksCell
    rw [if_neg h, hj, hl]
    show commaTokens (pyStrip s) = _
    unfold commaTokens
    rw [show (pyStrip s).toList = stripChars s.toList from rfl,
      splitComma_no_comma _ (by exact hc)]
    rw [List.filterMap_cons, List.filterMap_nil]
    rw [show stripChars (stripChars s.toList) = stripChars s.toList from
      stripChars_idem s.toList]
    rw [if_neg (by
      intro hemp
      apply h
      have hnil : stripChars s.toList = [] := by
        cases hx : stripChars s.toList with
        | nil => rfl
        | cons a t => rw [hx] at hemp; simp [List.isEmpty] at hemp
      show (⟨stripChars s.toList⟩ : String) = ""
      rw [hnil])]
    rfl

/-- Closed witness for C7 at a concrete malformed comma-free input. -/
theorem C7_decoder_fallback_witness :
    pyStrip "http://x" ≠ ""
    ∧ jsonParse (pyStrip "http://x") = none
    ∧ literalParse (pyStrip "http://x") = none
    ∧ parseLinksCell (pyStrip "http://x") = [PyVal.vstr (pyStrip "http://x")] :=
  ⟨by decide, rfl, rfl,
    (C7_decoder_fallback "http://x").2.2 (by decide) rfl rfl (by decide)⟩

/-! ## Lemmas: the ranked flag -/

theorem filter_all_length {α : Type} (f : α → Bool) (l : List α) :
    (l.filter f).length = l.length ↔ ∀ a ∈ l, f a = true := by
  induction l with
  | nil => simp
  | cons a t ih =>
    by_cases h : f a = true
    · simp [List.filter_cons, h, ih]
    · simp only [List.filter_cons]
      rw [if_neg (by simp [h])]
      constructor
      · intro hlen
        exfalso
        have hle := List.length_filter_le f t
        simp only [List.length_cons] at hlen
        omega
      · intro hall
        exact absurd (hall a (by simp)) h

theorem linkCounted_iff_resolve (rk : RankEntry) (idx : Nat) (link : Link) :
    linkCounted rk idx link = (resolveRank rk idx link.link_url).isSome := by
  unfold linkCounted resolveRank lookupIndexRank
  cases alistLookup rk.by_url link.link_url with
  | some v => simp
  | none =>
    cases alistLookup rk.by_index (PyKey.ik (idx : Int)) with
    | some n => simp
    | none =>
      cases alistLookup rk.by_index (PyKey.sk (natStr idx)) with
      | some n => simp
      | none => simp

theorem count_foldl_eq_filter_length {α : Type} (f : α → Bool) (l : List α) (n : Nat) :
    l.foldl (fun c p => if f p then c + 1 else c) n = n + (l.filter f).length := by
  induction l generalizing n with
  | nil => simp
  | cons a t ih =>
    by_cases h : f a = true
    · simp only [List.foldl_cons, List.filter_cons, h, if_pos trivial, ih]
      simp
      omega
    · simp only [List.foldl_cons, List.filter_cons, h]
      rw [if_neg (by simp [h]), ih]
      simp [h]

/-- C9 counterexample: for a PR with an empty link list and no entry in
the rank store, every link (vacuously) resolves, yet `get_prs` reports
`ranked == false` — the claimed equivalence fails without the
entry-present condition. -/
theorem C9_counterexample :
    (∀ p ∈ ([] : List Link).enum, ∀ rk : RankEntry,
        (resolveRank rk p.1 p.2.link_url).isSome = true)
    ∧ prRanked ([] : List (String × RankEntry)) "p" ([] : List Link) = false :=
  ⟨by intro p hp; simp at hp, rfl⟩

/-- C9 amended: the listing operation reports `ranked == true` iff the PR
has an entry in the rank store *and* every link in its ordered list
resolves to a rank via its index key or its URL key; in particular, with
an entry present, removing any single link's resolution flips the flag to
`false`. -/
theorem C9_ranked_iff_all_resolve (rankings : List (String × RankEntry))
    (pr_id : String) (links : List Link) :
    prRanked rankings pr_id links = true
      ↔ ∃ rk, alistLookup rankings pr_id = some rk
          ∧ ∀ p ∈ links.enum, (resolveRank rk p.1 p.2.link_url).isSome = true := by
  unfold prRanked
  cases hl : alistLookup rankings pr_id with
  | none =>
    constructor
    · intro hfalse
      exact absurd hfalse (by simp)
    · intro hex
      obtain ⟨rk, hrk, _⟩ := hex
      cases hrk
  | some rk =>
    show (links.enum.foldl (fun c p => if linkCounted rk p.1 p.2 then c + 1 else c) 0
        == links.length) = true ↔ _
    rw [count_foldl_eq_filter_length]
    constructor
    · intro hcount
      refine ⟨rk, rfl, fun p hp => ?_⟩
      rw [← linkCounted_iff_resolve]
      simp only [beq_iff_eq] at hcount
      have hlen : (links.enum.filter (fun p => linkCounted rk p.1 p.2)).length
          = links.enum.length := by
        rw [List.enum_length]
        omega
      exact (filter_all_length _ _).mp hlen p hp
    · intro hex
      obtain ⟨rk2, hrk2, hall⟩ := hex
      have hrk3 : rk = rk2 := by injection hrk2
      subst hrk3
      have hlen : (links.enum.filter (fun p => linkCounted rk p.1 p.2)).length
          = links.enum.length := by
        apply (filter_all_length _ _).mpr
        intro p hp
        rw [linkCounted_iff_resolve]
        exact hall p hp
      rw [List.enum_length] at hlen
      simp [hlen]

/-- Closed witness for C9: a fully resolved three-link PR is ranked, per
the amended equivalence. -/
theorem C9_ranked_iff_all_resolve_witness :
    prRanked [("p", ⟨[(PyKey.ik 0, 1), (PyKey.ik 1, 2)], [("http://c", PyVal.vint 3)]⟩)]
        "p" [⟨"http://a", "Link 1", "", none⟩, ⟨"http://b", "Link 2", "", none⟩,
          ⟨"http://c", "Link 3", "", none⟩] = true :=
  (C9_ranked_iff_all_resolve _ "p" _).mpr
    ⟨⟨[(PyKey.ik 0, 1), (PyKey.ik 1, 2)], [("http://c", PyVal.vint 3)]⟩, rfl,
      by decide⟩

/-! ## The C2 round trip: reimported shapes

`reLink`, `rePR` and `reFlat` describe what the ranking-import path
rebuilds from one exported PR block; `biOf` / `buOf` describe the
normalized rank entry that results.  They are specification-side
companions used to state the intermediate lemmas of the round-trip
argument. -/

/-- The integer rank a fully-ranked link resolves to. -/
def reRankOf (rk : RankEntry) (i : Nat) (url : String) : Option Int :=
  match resolveRank rk i url with
  | some (PyVal.vint r) => some r
  | _ => none

def reLink (rk : RankEntry) (q : Nat × Link) : Link :=
  { link_url := q.2.link_url
    link_text := if q.2.label_word ≠ "" then q.2.label_word else "Link"
    label_word := q.2.label_word
    rank := reRankOf rk q.1 q.2.link_url }

def rePR (rk : RankEntry) (pr : PR) : PR :=
  { uid := pr.uid, pr_link := pr.pr_link, repo := pr.repo, pr_title := pr.pr_title
    media_type := pr.media_type, isGithub := pr.isGithub
    link_count := CellV.cstr pr.link_count.toCsv
    links := pr.links.enum.map (reLink rk) }

/-- The flat rankings dict accumulated for one reimported PR: per ranked
link, the URL-keyed pair then the stringified-index pair. -/
def reFlat (rk : RankEntry) (pr : PR) : List (String × Int) :=
  pr.links.enum.flatMap (fun q =>
    match reRankOf rk q.1 q.2.link_url with
    | some r => [(q.2.link_url, r), (natStr q.1, r)]
    | none => [])

def biOf (rk : RankEntry) (pr : PR) : List (PyKey × Int) :=
  pr.links.enum.map (fun q =>
    (PyKey.ik (q.1 : Int), (reRankOf rk q.1 q.2.link_url).getD 0))

def buOf (rk : RankEntry) (pr : PR) : List (String × PyVal) :=
  pr.links.enum.map (fun q =>
    (q.2.link_url, PyVal.vint ((reRankOf rk q.1 q.2.link_url).getD 0)))

/-! ## Small lemmas for the round trip -/

theorem pyStrip_natStr (n : Nat) : pyStrip (natStr n) = natStr n := by
  unfold pyStrip natStr
  rw [show (⟨natToDigits n⟩ : String).toList = natToDigits n from rfl,
    stripChars_natToDigits n]

theorem intStr_natCast (n : Nat) : intStr ((n : Nat) : Int) = natStr n := by
  unfold intStr natStr
  rw [if_neg (by omega), Int.natAbs_ofNat]

theorem pyStr_vint (n : Int) : pyStr (PyVal.vint n) = intStr n := by
  rw [show pyStr (PyVal.vint n) = pyRepr (PyVal.vint n) from rfl]
  rw [pyRepr]

theorem csvCellOfRank_vint (n : Int) : csvCellOfRank (PyVal.vint n) = intStr n := by
  unfold csvCellOfRank
  exact pyStr_vint n

theorem exportCsvRankCell_of_resolve (rk : RankEntry) (i : Nat) (url : String)
    (r : Int) (h : resolveRank rk i url = some (PyVal.vint r)) :
    exportCsvRankCell rk i url = intStr r := by
  unfold resolveRank at h
  unfold exportCsvRankCell
  cases hu : alistLookup rk.by_url url with
  | some v =>
    rw [hu] at h
    have hv : v = PyVal.vint r := by injection h
    rw [hv]
    exact csvCellOfRank_vint r
  | none =>
    rw [hu] at h
    cases hi : lookupIndexRank rk.by_index i with
    | some n =>
      rw [hi] at h
      have : PyVal.vint n = PyVal.vint r := by injection h
      have h2 : n = r := by injection this
      rw [h2]
    | none =>
      rw [hi] at h
      cases h

theorem reRankOf_of_resolve (rk : RankEntry) (i : Nat) (url : String) (r : Int)
    (h : resolveRank rk i url = some (PyVal.vint r)) :
    reRankOf rk i url = some r := by
  unfold reRankOf
  rw [h]

theorem alistLookup_append_last_ne {α β : Type} [DecidableEq α]
    (l : List (α × β)) (k k' : α) (v : β) (h : alistLookup l k' = none)
    (hne : k ≠ k') : alistLookup (l ++ [(k, v)]) k' = none := by
  rw [alistLookup_append_of_none l _ k' h]
  simp [alistLookup, hne]

theorem alistLookup_append_last_self {α β : Type} [DecidableEq α]
    (l : List (α × β)) (k : α) (v : β) (h : alistLookup l k = none) :
    alistLookup (l ++ [(k, v)]) k = some v := by
  rw [alistLookup_append_of_none l _ k h]
  simp [alistLookup]

theorem alistLookup_map_key_of_nodup {α β γ : Type} [DecidableEq α]
    (key : γ → α) (val : γ → β) :
    ∀ (l : List γ), (l.map key).Nodup → ∀ x ∈ l,
      alistLookup (l.map (fun y => (key y, val y))) (key x) = some (val x) := by
  intro l
  induction l with
  | nil => intro _ x hx; cases hx
  | cons a t ih =>
    intro hnd x hx
    rcases List.mem_cons.mp hx with rfl | hx2
    · simp [alistLookup]
    · have hne : key a ≠ key x := by
        intro he
        have hmem : key x ∈ t.map key := List.mem_map_of_mem key hx2
        rw [← he] at hmem
        exact (List.nodup_cons.mp hnd).1 hmem
      simp only [List.map_cons, alistLookup]
      rw [if_neg hne]
      exact ih (List.nodup_cons.mp hnd).2 x hx2

theorem enum_map_link_url (links : List Link) :
    links.enum.map (fun q => q.2.link_url) = links.map Link.link_url := by
  rw [show (fun q : Nat × Link => q.2.link_url) = Link.link_url ∘ Prod.snd from rfl,
    ← List.map_map, List.enum_map_snd]

/-! ## getCell reductions on the export header -/

theorem getCell_x_uid (c0 c1 c2 c3 c4 c5 c6 c7 c8 c9 c10 d : String) :
    getCell exportHeader [c0, c1, c2, c3, c4, c5, c6, c7, c8, c9, c10] "uid" d = c0 := rfl

theorem getCell_x_pr_link (c0 c1 c2 c3 c4 c5 c6 c7 c8 c9 c10 d : String) :
    getCell exportHeader [c0, c1, c2, c3, c4, c5, c6, c7, c8, c9, c10] "pr_link" d
      = c1 := rfl

theorem getCell_x_repo (c0 c1 c2 c3 c4 c5 c6 c7 c8 c9 c10 d : String) :
    getCell exportHeader [c0, c1, c2, c3, c4, c5, c6, c7, c8, c9, c10] "repo" d
      = c2 := rfl

theorem getCell_x_pr_title (c0 c1 c2 c3 c4 c5 c6 c7 c8 c9 c10 d : String) :
    getCell exportHeader [c0, c1, c2, c3, c4, c5, c6, c7, c8, c9, c10] "pr_title" d
      = c3 := rfl

theorem getCell_x_media_type (c0 c1 c2 c3 c4 c5 c6 c7 c8 c9 c10 d : String) :
    getCell exportHeader [c0, c1, c2, c3, c4, c5, c6, c7, c8, c9, c10] "media_type" d
      = c4 := rfl

theorem getCell_x_isGithub (c0 c1 c2 c3 c4 c5 c6 c7 c8 c9 c10 d : String) :
    getCell exportHeader [c0, c1, c2, c3, c4, c5, c6, c7, c8, c9, c10] "isGithub" d
      = c5 := rfl

theorem getCell_x_link_count (c0 c1 c2 c3 c4 c5 c6 c7 c8 c9 c10 d : String) :
    getCell exportHeader [c0, c1, c2, c3, c4, c5, c6, c7, c8, c9, c10] "link_count" d
      = c6 := rfl

theorem getCell_x_link (c0 c1 c2 c3 c4 c5 c6 c7 c8 c9 c10 d : String) :
    getCell exportHeader [c0, c1, c2, c3, c4, c5, c6, c7, c8, c9, c10] "link" d
      = c7 := rfl

theorem getCell_x_label_word (c0 c1 c2 c3 c4 c5 c6 c7 c8 c9 c10 d : String) :
    getCell exportHeader [c0, c1, c2, c3, c4, c5, c6, c7, c8, c9, c10] "label_word" d
      = c8 := rfl

theorem getCell_x_link_index (c0 c1 c2 c3 c4 c5 c6 c7 c8 c9 c10 d : String) :
    getCell exportHeader [c0, c1, c2, c3, c4, c5, c6, c7, c8, c9, c10] "link_index" d
      = c9 := rfl

theorem getCell_x_rank (c0 c1 c2 c3 c4 c5 c6 c7 c8 c9 c10 d : String) :
    getCell exportHeader [c0, c1, c2, c3, c4, c5, c6, c7, c8, c9, c10] "rank" d
      = c10 := rfl

theorem load_ranking_csv_data_export_header (rows : List (List String)) :
    load_ranking_csv_data exportHeader rows
      = Except.ok (rows.foldl (load_ranking_row exportHeader true false) ([], [])) := by
  rfl

set_option maxHeartbeats 2000000 in
/-- Processing one exported link row of a PR whose entry is already the
last element of both accumulators: the link is appended to the PR record
and the URL-keyed and index-keyed rank pairs are appended to its flat
rankings dict. -/
theorem load_ranking_row_export_step (rk : RankEntry) (pr : PR) (q : Nat × Link)
    (prs1 : List (String × PR)) (rks1 : List (String × List (String × Int)))
    (cur : PR) (m : List (String × Int)) (r : Int)
    (hpr0 : alistLookup prs1 pr.pr_link = none)
    (hrk0 : alistLookup rks1 pr.pr_link = none)
    (hurl : pyStrip q.2.link_url = q.2.link_url)
    (hurlint : pyInt? q.2.link_url = none)
    (hlab : pyStrip q.2.label_word = q.2.label_word)
    (hres : resolveRank rk q.1 q.2.link_url = some (PyVal.vint r))
    (hfresh1 : alistLookup m q.2.link_url = none)
    (hfresh2 : alistLookup m (natStr q.1) = none) :
    load_ranking_row exportHeader true false
        (prs1 ++ [(pr.pr_link, cur)], rks1 ++ [(pr.pr_link, m)])
        (exportRowOf rk pr q)
      = (prs1 ++ [(pr.pr_link, { cur with links := cur.links ++
            [⟨q.2.link_url, if q.2.label_word ≠ "" then q.2.label_word else "Link",
              q.2.label_word, some r⟩] })],
         rks1 ++ [(pr.pr_link, m ++ [(q.2.link_url, r), (natStr q.1, r)])]) := by
  have hnatne : q.2.link_url ≠ natStr q.1 := by
    intro he
    rw [he, pyInt?_natStr] at hurlint
    cases hurlint
  unfold load_ranking_row exportRowOf
  simp only [getCell_x_uid, getCell_x_pr_link, getCell_x_repo, getCell_x_pr_title,
    getCell_x_media_type, getCell_x_isGithub, getCell_x_link_count, getCell_x_link,
    getCell_x_label_word, getCell_x_link_index, getCell_x_rank]
  rw [alistLookup_append_last_self prs1 pr.pr_link cur hpr0,
    alistLookup_append_last_self rks1 pr.pr_link m hrk0]
  simp only [Option.isSome_some, if_true, if_pos trivial]
  rw [exportCsvRankCell_of_resolve rk q.1 q.2.link_url r hres,
    hurl, hlab, pyStrip_intStr, rank_of_cell_intStr, pyStrip_natStr, pyInt?_natStr]
  dsimp only
  rw [intStr_natCast]
  rw [alistModify_last prs1 pr.pr_link cur _ hpr0]
  rw [alistModify_last rks1 pr.pr_link m _ hrk0]
  rw [alistInsert_of_none m q.2.link_url r hfresh1]
  rw [alistModify_last rks1 pr.pr_link (m ++ [(q.2.link_url, r)]) _ hrk0]
  rw [alistInsert_of_none (m ++ [(q.2.link_url, r)]) (natStr q.1) r
    (alistLookup_append_last_ne m q.2.link_url (natStr q.1) r hfresh2 hnatne)]
  simp

set_option maxHeartbeats 2000000 in
/-- Processing the first exported link row of a PR not yet present in the
accumulators: the PR record is created from the row's metadata, its first
link appended, and its flat rankings dict started with the two rank
pairs. -/
theorem load_ranking_row_export_create (rk : RankEntry) (pr : PR) (q : Nat × Link)
    (prs0 : List (String × PR)) (rks0 : List (String × List (String × Int)))
    (r : Int)
    (hpr0 : alistLookup prs0 pr.pr_link = none)
    (hrk0 : alistLookup rks0 pr.pr_link = none)
    (hurl : pyStrip q.2.link_url = q.2.link_url)
    (hurlint : pyInt? q.2.link_url = none)
    (hlab : pyStrip q.2.label_word = q.2.label_word)
    (hres : resolveRank rk q.1 q.2.link_url = some (PyVal.vint r)) :
    load_ranking_row exportHeader true false (prs0, rks0) (exportRowOf rk pr q)
      = (prs0 ++ [(pr.pr_link,
            ⟨pr.uid, pr.pr_link, pr.repo, pr.pr_title, pr.media_type, pr.isGithub,
              CellV.cstr pr.link_count.toCsv,
              [⟨q.2.link_url, if q.2.label_word ≠ "" then q.2.label_word else "Link",
                q.2.label_word, some r⟩]⟩)],
         rks0 ++ [(pr.pr_link, [(q.2.link_url, r), (natStr q.1, r)])]) := by
  have hnatne : q.2.link_url ≠ natStr q.1 := by
    intro he
    rw [he, pyInt?_natStr] at hurlint
    cases hurlint
  unfold load_ranking_row exportRowOf freshRankPR
  simp only [getCell_x_uid, getCell_x_pr_link, getCell_x_repo, getCell_x_pr_title,
    getCell_x_media_type, getCell_x_isGithub, getCell_x_link_count, getCell_x_link,
    getCell_x_label_word, getCell_x_link_index, getCell_x_rank]
  rw [hpr0, hrk0]
  simp only [Option.isSome_none, Bool.false_eq_true, if_false]
  rw [exportCsvRankCell_of_resolve rk q.1 q.2.link_url r hres,
    hurl, hlab, pyStrip_intStr, rank_of_cell_intStr, pyStrip_natStr, pyInt?_natStr]
  dsimp only
  rw [intStr_natCast]
  rw [alistModify_last prs0 pr.pr_link _ _ hpr0]
  rw [alistModify_last rks0 pr.pr_link _ _ hrk0]
  rw [show alistInsert ([] : List (String × Int)) q.2.link_url r
      = [(q.2.link_url, r)] from rfl]
  rw [alistModify_last rks0 pr.pr_link [(q.2.link_url, r)] _ hrk0]
  rw [alistInsert_of_none [(q.2.link_url, r)] (natStr q.1) r
    (by simp [alistLookup]; exact hnatne)]
  simp

/-- Folding the exported rows of a PR's link suffix (ordinals from `j`)
from a state where the PR's entry is the last element of both
accumulators appends the reimported links and the flat rank pairs. -/
theorem ranking_fold_links (rk : RankEntry) (pr : PR) :
    ∀ (ls : List Link) (j : Nat) (prs1 : List (String × PR))
      (rks1 : List (String × List (String × Int))) (cur : PR)
      (m : List (String × Int)),
      alistLookup prs1 pr.pr_link = none →
      alistLookup rks1 pr.pr_link = none →
      (ls.map Link.link_url).Nodup →
      (∀ l ∈ ls, pyStrip l.link_url = l.link_url ∧ pyInt? l.link_url = none ∧
        pyStrip l.label_word = l.label_word) →
      (∀ q ∈ List.enumFrom j ls, ∃ r : Int,
        resolveRank rk q.1 q.2.link_url = some (PyVal.vint r)) →
      (∀ l ∈ ls, alistLookup m l.link_url = none) →
      (∀ q ∈ List.enumFrom j ls, alistLookup m (natStr q.1) = none) →
      List.foldl (load_ranking_row exportHeader true false)
          (prs1 ++ [(pr.pr_link, cur)], rks1 ++ [(pr.pr_link, m)])
          ((List.enumFrom j ls).map (exportRowOf rk pr))
        = (prs1 ++ [(pr.pr_link, { cur with links := cur.links ++ (List.enumFrom j ls).map (reLink rk) })],
           rks1 ++ [(pr.pr_link, m ++ (List.enumFrom j ls).flatMap (fun q =>
              match reRankOf rk q.1 q.2.link_url with
              | some r => [(q.2.link_url, r), (natStr q.1, r)]
              | none => []))]) := by
  intro ls
  induction ls with
  | nil =>
    intro j prs1 rks1 cur m _ _ _ _ _ _ _
    simp
  | cons l t ih =>
    intro j prs1 rks1 cur m hpr0 hrk0 hnd h4 h5 hfm hfi
    obtain ⟨r, hres⟩ := h5 (j, l) (by rw [List.enumFrom_cons]; simp)
    have h4l := h4 l (by simp)
    have hfml := hfm l (by simp)
    have hfij : alistLookup m (natStr j) = none :=
      hfi (j, l) (by rw [List.enumFrom_cons]; simp)
    rw [List.enumFrom_cons, List.map_cons, List.foldl_cons]
    rw [load_ranking_row_export_step rk pr (j, l) prs1 rks1 cur m r hpr0 hrk0
      h4l.1 h4l.2.1 h4l.2.2 hres hfml hfij]
    have hurlne : ∀ x ∈ t, x.link_url ≠ l.link_url := by
      intro x hx he
      have hmem : x.link_url ∈ t.map Link.link_url := List.mem_map_of_mem _ hx
      rw [he] at hmem
      exact (List.nodup_cons.mp hnd).1 hmem
    have hstep := ih (j + 1) prs1 rks1
      ({ cur with links := cur.links ++
        [⟨l.link_url, if l.label_word ≠ "" then l.label_word else "Link",
          l.label_word, some r⟩] })
      (m ++ [(l.link_url, r), (natStr j, r)])
      hpr0 hrk0 (List.nodup_cons.mp hnd).2 (fun x hx => h4 x (by simp [hx]))
      (fun q hq => h5 q (by rw [List.enumFrom_cons]; simp [hq]))
      (fun x hx => by
        rw [show m ++ [(l.link_url, r), (natStr j, r)]
            = (m ++ [(l.link_url, r)]) ++ [(natStr j, r)] from by simp]
        apply alistLookup_append_last_ne
        · exact alistLookup_append_last_ne m l.link_url x.link_url r
            (hfm x (by simp [hx])) (fun he => hurlne x hx he.symm)
        · intro he
          have := (h4 x (by simp [hx])).2.1
          rw [← he, pyInt?_natStr] at this
          cases this)
      (fun q hq => by
        rw [show m ++ [(l.link_url, r), (natStr j, r)]
            = (m ++ [(l.link_url, r)]) ++ [(natStr j, r)] from by simp]
        have hj1 : j + 1 ≤ q.1 := by
          rcases q with ⟨qi, qx⟩
          exact (List.mem_enumFrom hq).1
        apply alistLookup_append_last_ne
        · apply alistLookup_append_last_ne m l.link_url (natStr q.1) r
            (hfi q (by rw [List.enumFrom_cons]; simp [hq]))
          intro he
          rw [he, pyInt?_natStr] at h4l
          cases h4l.2.1
        · intro he
          have hji : j = q.1 := natStr_inj he
          omega)
    rw [hstep]
    simp [reLink, reRankOf_of_resolve rk j l.link_url r hres]

/-- Folding all exported blocks: each PR with at least one link is
reimported as its `rePR` record together with its `reFlat` flat rankings
dict; PRs with no links contribute no rows and vanish. -/
theorem ranking_fold_blocks (ent : String → RankEntry) :
    ∀ (prsList : List (String × PR)) (prs0 : List (String × PR))
      (rks0 : List (String × List (String × Int))),
      (prsList.map Prod.fst).Nodup →
      (∀ p ∈ prsList, alistLookup prs0 p.1 = none) →
      (∀ p ∈ prsList, alistLookup rks0 p.1 = none) →
      (∀ p ∈ prsList, p.2.pr_link = p.1) →
      (∀ p ∈ prsList, (p.2.links.map Link.link_url).Nodup) →
      (∀ p ∈ prsList, ∀ l ∈ p.2.links, pyStrip l.link_url = l.link_url ∧
        pyInt? l.link_url = none ∧ pyStrip l.label_word = l.label_word) →
      (∀ p ∈ prsList, ∀ q ∈ p.2.links.enum, ∃ r : Int,
        resolveRank (ent p.1) q.1 q.2.link_url = some (PyVal.vint r)) →
      List.foldl (load_ranking_row exportHeader true false) (prs0, rks0)
          (prsList.foldr (fun p acc => prCsvRows (ent p.1) p.2 ++ acc) [])
        = (prs0 ++ (prsList.filter (fun p => !p.2.links.isEmpty)).map
              (fun p => (p.1, rePR (ent p.1) p.2)),
           rks0 ++ (prsList.filter (fun p => !p.2.links.isEmpty)).map
              (fun p => (p.1, reFlat (ent p.1) p.2))) := by
  intro prsList
  induction prsList with
  | nil =>
    intro prs0 rks0 _ _ _ _ _ _ _
    simp
  | cons p rest ih =>
    intro prs0 rks0 hnd hf1 hf2 hkey hnd2 h4 h5
    rw [List.foldr_cons, List.foldl_append]
    have hkeyp := hkey p (by simp)
    cases hls : p.2.links with
    | nil =>
      rw [show prCsvRows (ent p.1) p.2 = [] from by unfold prCsvRows; rw [hls]; rfl]
      rw [List.foldl_nil]
      rw [ih prs0 rks0 (List.nodup_cons.mp hnd).2 (fun x hx => hf1 x (by simp [hx]))
        (fun x hx => hf2 x (by simp [hx])) (fun x hx => hkey x (by simp [hx]))
        (fun x hx => hnd2 x (by simp [hx])) (fun x hx => h4 x (by simp [hx]))
        (fun x hx => h5 x (by simp [hx]))]
      rw [show List.filter (fun p => !p.2.links.isEmpty) (p :: rest)
          = List.filter (fun p => !p.2.links.isEmpty) rest from by
        rw [List.filter_cons]
        rw [if_neg (by rw [hls]; simp)]]
    | cons l0 ls' =>
      have hblock : prCsvRows (ent p.1) p.2
          = exportRowOf (ent p.1) p.2 (0, l0)
            :: (List.enumFrom 1 ls').map (exportRowOf (ent p.1) p.2) := by
        unfold prCsvRows
        rw [hls]
        rfl
      rw [hblock, List.foldl_cons]
      obtain ⟨r0, hres0⟩ := by
        refine h5 p (by simp) (0, l0) ?_
        rw [show p.2.links.enum = List.enumFrom 0 p.2.links from rfl, hls,
          List.enumFrom_cons]
        simp
      have h4p := h4 p (by simp)
      have h40 := h4p l0 (by rw [hls]; simp)
      have hcreate := load_ranking_row_export_create (ent p.1) p.2 (0, l0) prs0 rks0
        r0 (by rw [hkeyp]; exact hf1 p (by simp)) (by rw [hkeyp]; exact hf2 p (by simp))
        h40.1 h40.2.1 h40.2.2 hres0
      rw [hcreate]
      have hnd2p := hnd2 p (by simp)
      rw [hls] at hnd2p
      have hlinks := ranking_fold_links (ent p.1) p.2 ls' 1 prs0 rks0
        (⟨p.2.uid, p.2.pr_link, p.2.repo, p.2.pr_title, p.2.media_type, p.2.isGithub,
          CellV.cstr p.2.link_count.toCsv,
          [⟨l0.link_url, if l0.label_word ≠ "" then l0.label_word else "Link",
            l0.label_word, some r0⟩]⟩)
        [(l0.link_url, r0), (natStr 0, r0)]
        (by rw [hkeyp]; exact hf1 p (by simp)) (by rw [hkeyp]; exact hf2 p (by simp))
        (List.nodup_cons.mp hnd2p).2
        (fun x hx => h4p x (by rw [hls]; simp [hx]))
        (fun q hq => by
          refine h5 p (by simp) q ?_
          rw [show p.2.links.enum = List.enumFrom 0 p.2.links from rfl, hls,
            List.enumFrom_cons]
          simp [hq])
        (fun x hx => by
          rw [show [(l0.link_url, r0), (natStr 0, r0)]
              = ([] ++ [(l0.link_url, r0)]) ++ [(natStr 0, r0)] from by simp]
          apply alistLookup_append_last_ne
          · apply alistLookup_append_last_ne
            · rfl
            · intro he
              have hmem : x.link_url ∈ (ls').map Link.link_url :=
                List.mem_map_of_mem _ hx
              rw [← he] at hmem
              exact (List.nodup_cons.mp hnd2p).1 hmem
          · intro he
            have := (h4p x (by rw [hls]; simp [hx])).2.1
            rw [← he, pyInt?_natStr] at this
            cases this)
        (fun q hq => by
          rw [show [(l0.link_url, r0), (natStr 0, r0)]
              = ([] ++ [(l0.link_url, r0)]) ++ [(natStr 0, r0)] from by simp]
          have hq1 : 1 ≤ q.1 := by
            rcases q with ⟨qi, qx⟩
            exact (List.mem_enumFrom hq).1
          apply alistLookup_append_last_ne
          · apply alistLookup_append_last_ne
            · rfl
            · intro he
              rw [he, pyInt?_natStr] at h40
              cases h40.2.1
          · intro he
            have h01 : (0 : Nat) = q.1 := natStr_inj he
            omega)
      rw [hlinks]
      have hrest := ih (prs0 ++ [(p.1, rePR (ent p.1) p.2)])
        (rks0 ++ [(p.1, reFlat (ent p.1) p.2)])
        (List.nodup_cons.mp hnd).2
        (fun x hx => alistLookup_append_last_ne _ _ _ _ (hf1 x (by simp [hx]))
          (fun he => (List.nodup_cons.mp hnd).1 (he ▸ List.mem_map_of_mem Prod.fst hx)))
        (fun x hx => alistLookup_append_last_ne _ _ _ _ (hf2 x (by simp [hx]))
          (fun he => (List.nodup_cons.mp hnd).1 (he ▸ List.mem_map_of_mem Prod.fst hx)))
        (fun x hx => hkey x (by simp [hx]))
        (fun x hx => hnd2 x (by simp [hx]))
        (fun x hx => h4 x (by simp [hx]))
        (fun x hx => h5 x (by simp [hx]))
      have hshape1 : (⟨p.2.uid, p.2.pr_link, p.2.repo, p.2.pr_title, p.2.media_type, p.2.isGithub, CellV.cstr p.2.link_count.toCsv, [(⟨l0.link_url, if l0.label_word ≠ "" then l0.label_word else "Link", l0.label_word, some r0⟩ : Link)] ++ (List.enumFrom 1 ls').map (reLink (ent p.1))⟩ : PR) = rePR (ent p.1) p.2 := by
        unfold rePR
        rw [show p.2.links.enum = List.enumFrom 0 p.2.links from rfl, hls,
          List.enumFrom_cons, List.map_cons]
        simp [reLink, reRankOf_of_resolve (ent p.1) 0 l0.link_url r0 hres0]
      have hshape2 : [(l0.link_url, r0), (natStr 0, r0)]
          ++ (List.enumFrom 1 ls').flatMap (fun q =>
            match reRankOf (ent p.1) q.1 q.2.link_url with
            | some r => [(q.2.link_url, r), (natStr q.1, r)]
            | none => []) = reFlat (ent p.1) p.2 := by
        unfold reFlat
        rw [show p.2.links.enum = List.enumFrom 0 p.2.links from rfl, hls,
          List.enumFrom_cons, List.flatMap_cons]
        simp [reRankOf_of_resolve (ent p.1) 0 l0.link_url r0 hres0]
      dsimp only
      rw [hshape1, hshape2, hkeyp, hrest]
      rw [List.filter_cons, if_pos (by rw [hls]; simp)]
      simp

/-- The per-pair step of the `/api/load_ranking` normalization, named so
the fold can be reasoned about pair by pair. -/
def normStep (acc : RankEntry) (p : String × Int) : RankEntry :=
  match pyInt? p.1 with
  | some ik => { acc with by_index := alistInsert acc.by_index (PyKey.ik ik) p.2 }
  | none => { acc with by_url := alistInsert acc.by_url p.1 (PyVal.vint p.2) }

theorem normalizeRankings_eq_foldl (rk : List (String × Int)) :
    normalizeRankings rk = rk.foldl normStep emptyRankEntry := rfl

theorem normStep_url (acc : RankEntry) (k : String) (v : Int) (h : pyInt? k = none) :
    normStep acc (k, v)
      = { acc with by_url := alistInsert acc.by_url k (PyVal.vint v) } := by
  unfold normStep
  rw [h]

theorem normStep_idx (acc : RankEntry) (j : Nat) (v : Int) :
    normStep acc (natStr j, v)
      = { acc with by_index := alistInsert acc.by_index (PyKey.ik (j : Int)) v } := by
  unfold normStep
  rw [pyInt?_natStr]

/-- Normalizing the flat pairs of a link suffix (ordinals from `j`)
appends the index-keyed and URL-keyed pairs in link order. -/
theorem normalize_fold_links (rk : RankEntry) :
    ∀ (ls : List Link) (j : Nat) (acc : RankEntry),
      (ls.map Link.link_url).Nodup →
      (∀ l ∈ ls, pyInt? l.link_url = none) →
      (∀ q ∈ List.enumFrom j ls, ∃ r : Int,
        resolveRank rk q.1 q.2.link_url = some (PyVal.vint r)) →
      (∀ l ∈ ls, alistLookup acc.by_url l.link_url = none) →
      (∀ q ∈ List.enumFrom j ls, alistLookup acc.by_index (PyKey.ik (q.1 : Int)) = none) →
      List.foldl normStep acc ((List.enumFrom j ls).flatMap (fun q =>
          match reRankOf rk q.1 q.2.link_url with
          | some r => [(q.2.link_url, r), (natStr q.1, r)]
          | none => []))
        = ⟨acc.by_index ++ (List.enumFrom j ls).map (fun q =>
              (PyKey.ik (q.1 : Int), (reRankOf rk q.1 q.2.link_url).getD 0)),
           acc.by_url ++ (List.enumFrom j ls).map (fun q =>
              (q.2.link_url, PyVal.vint ((reRankOf rk q.1 q.2.link_url).getD 0)))⟩ := by
  intro ls
  induction ls with
  | nil =>
    intro j acc _ _ _ _ _
    simp
  | cons l t ih =>
    intro j acc hnd h4 h5 hfu hfi
    obtain ⟨r, hres⟩ := h5 (j, l) (by rw [List.enumFrom_cons]; simp)
    have hre := reRankOf_of_resolve rk j l.link_url r hres
    have h4l := h4 l (by simp)
    rw [List.enumFrom_cons, List.flatMap_cons]
    dsimp only
    rw [hre]
    dsimp only
    rw [List.foldl_append, List.foldl_cons, List.foldl_cons, List.foldl_nil]
    rw [normStep_url acc l.link_url r h4l]
    rw [alistInsert_of_none acc.by_url l.link_url _ (hfu l (by simp))]
    rw [normStep_idx]
    dsimp only
    rw [alistInsert_of_none acc.by_index (PyKey.ik (j : Int)) r
      (hfi (j, l) (by rw [List.enumFrom_cons]; simp))]
    have hurlne : ∀ x ∈ t, x.link_url ≠ l.link_url := by
      intro x hx he
      have hmem : x.link_url ∈ t.map Link.link_url := List.mem_map_of_mem _ hx
      rw [he] at hmem
      exact (List.nodup_cons.mp hnd).1 hmem
    have hstep := ih (j + 1)
      (⟨acc.by_index ++ [(PyKey.ik (j : Int), r)],
        acc.by_url ++ [(l.link_url, PyVal.vint r)]⟩)
      (List.nodup_cons.mp hnd).2 (fun x hx => h4 x (by simp [hx]))
      (fun q hq => h5 q (by rw [List.enumFrom_cons]; simp [hq]))
      (fun x hx => alistLookup_append_last_ne acc.by_url l.link_url x.link_url _
        (hfu x (by simp [hx])) (fun he => hurlne x hx he.symm))
      (fun q hq => by
        have hj1 : j + 1 ≤ q.1 := by
          rcases q with ⟨qi, qx⟩
          exact (List.mem_enumFrom hq).1
        refine alistLookup_append_last_ne acc.by_index (PyKey.ik (j : Int))
          (PyKey.ik (q.1 : Int)) r
          (hfi q (by rw [List.enumFrom_cons]; simp [hq])) ?_
        intro he
        have : (j : Int) = (q.1 : Int) := by injection he
        omega)
    rw [hstep]
    simp [hre]

theorem enumFrom_enumFrom_map {α β : Type} (f : Nat × α → β) :
    ∀ (l : List α) (n : Nat),
      List.enumFrom n (List.map f (List.enumFrom n l))
        = List.map (fun q => (q.1, f q)) (List.enumFrom n l) := by
  intro l
  induction l with
  | nil => intro n; rfl
  | cons a t ih =>
    intro n
    simp only [List.enumFrom_cons, List.map_cons, ih (n + 1)]

theorem exportCsvRankCell_buOf (rk : RankEntry) (pr : PR) (i : Nat) (url : String)
    (v : Int) (hbu : alistLookup (buOf rk pr) url = some (PyVal.vint v)) :
    exportCsvRankCell ⟨biOf rk pr, buOf rk pr⟩ i url = intStr v := by
  unfold exportCsvRankCell
  dsimp only
  rw [hbu]
  exact csvCellOfRank_vint v

/-- One link row of the re-imported PR renders byte-identically: the
metadata cells are carried over and the rank cell resolves through the
normalized `by_url` map to the same integer. -/
theorem reexport_row (rk : RankEntry) (pr : PR) (q : Nat × Link) (r : Int)
    (hres : resolveRank rk q.1 q.2.link_url = some (PyVal.vint r))
    (hbu : alistLookup (buOf rk pr) q.2.link_url
        = some (PyVal.vint ((reRankOf rk q.1 q.2.link_url).getD 0))) :
    exportRowOf ⟨biOf rk pr, buOf rk pr⟩ (rePR rk pr) (q.1, reLink rk q)
      = exportRowOf rk pr q := by
  have hre := reRankOf_of_resolve rk q.1 q.2.link_url r hres
  rw [hre] at hbu
  unfold exportRowOf rePR reLink CellV.toCsv
  dsimp only
  rw [exportCsvRankCell_of_resolve rk q.1 q.2.link_url r hres]
  rw [exportCsvRankCell_buOf rk pr q.1 q.2.link_url r hbu]

/-- The CSV block a re-imported PR produces under its normalized rank
entry coincides with the block the original session produced. -/
theorem reexport_block (rk : RankEntry) (pr : PR)
    (hnd : (pr.links.map Link.link_url).Nodup)
    (h5 : ∀ q ∈ pr.links.enum, ∃ r : Int,
      resolveRank rk q.1 q.2.link_url = some (PyVal.vint r)) :
    prCsvRows ⟨biOf rk pr, buOf rk pr⟩ (rePR rk pr) = prCsvRows rk pr := by
  unfold prCsvRows
  rw [show (rePR rk pr).links = List.map (reLink rk) (List.enumFrom 0 pr.links) from rfl]
  rw [show (List.map (reLink rk) (List.enumFrom 0 pr.links)).enum
      = List.enumFrom 0 (List.map (reLink rk) (List.enumFrom 0 pr.links)) from rfl]
  rw [enumFrom_enumFrom_map (reLink rk) pr.links 0]
  rw [List.map_map]
  refine List.map_congr_left ?_
  intro q hq
  obtain ⟨r, hres⟩ := h5 q hq
  have hraw := alistLookup_map_key_of_nodup (fun y : Nat × Link => y.2.link_url)
    (fun y : Nat × Link => PyVal.vint ((reRankOf rk y.1 y.2.link_url).getD 0))
    pr.links.enum (by rw [enum_map_link_url]; exact hnd) q hq
  have hbu : alistLookup (buOf rk pr) q.2.link_url
      = some (PyVal.vint ((reRankOf rk q.1 q.2.link_url).getD 0)) := hraw
  exact reexport_row rk pr q r hres hbu

/-- Normalizing the flat rankings of a fully-resolved PR with trimmed
non-integer distinct URLs yields exactly the `biOf`/`buOf` pair. -/
theorem normalizeRankings_reFlat (rk : RankEntry) (pr : PR)
    (hnd : (pr.links.map Link.link_url).Nodup)
    (h4 : ∀ l ∈ pr.links, pyInt? l.link_url = none)
    (h5 : ∀ q ∈ pr.links.enum, ∃ r : Int,
      resolveRank rk q.1 q.2.link_url = some (PyVal.vint r)) :
    normalizeRankings (reFlat rk pr) = ⟨biOf rk pr, buOf rk pr⟩ := by
  rw [normalizeRankings_eq_foldl]
  have h := normalize_fold_links rk pr.links 0 emptyRankEntry hnd h4 h5
    (fun l _ => rfl) (fun q _ => rfl)
  exact h

/-- Re-exporting the reloaded session reproduces the original blocks of
the PRs that had at least one link, one block per surviving PR. -/
theorem export_rows_reloaded (sE : String → RankEntry) (F : List (String × PR))
    (hndF : (F.map Prod.fst).Nodup)
    (hndl : ∀ p ∈ F, (p.2.links.map Link.link_url).Nodup)
    (h5F : ∀ p ∈ F, ∀ q ∈ p.2.links.enum, ∃ r : Int,
      resolveRank (sE p.1) q.1 q.2.link_url = some (PyVal.vint r)) :
    export_csv_rows ⟨F.map (fun p => (p.1, rePR (sE p.1) p.2)),
        F.map (fun p => (p.1, (⟨biOf (sE p.1) p.2, buOf (sE p.1) p.2⟩ : RankEntry)))⟩
      = F.foldr (fun p acc => prCsvRows (sE p.1) p.2 ++ acc) [] := by
  unfold export_csv_rows
  dsimp only
  rw [List.foldr_map]
  refine List.foldr_ext _ _ [] ?_
  intro p hp acc
  dsimp only
  have hraw := alistLookup_map_key_of_nodup (fun y : String × PR => y.1)
    (fun y : String × PR => (⟨biOf (sE y.1) y.2, buOf (sE y.1) y.2⟩ : RankEntry))
    F hndF p hp
  have hlook : alistLookup
      (F.map (fun p => (p.1, (⟨biOf (sE p.1) p.2, buOf (sE p.1) p.2⟩ : RankEntry)))) p.1
      = some ⟨biOf (sE p.1) p.2, buOf (sE p.1) p.2⟩ := hraw
  rw [show sessionEntry
        ⟨F.map (fun p => (p.1, rePR (sE p.1) p.2)),
         F.map (fun p => (p.1, (⟨biOf (sE p.1) p.2, buOf (sE p.1) p.2⟩ : RankEntry)))⟩ p.1
      = (⟨biOf (sE p.1) p.2, buOf (sE p.1) p.2⟩ : RankEntry) from by
    unfold sessionEntry
    dsimp only
    rw [hlook]
    rfl]
  rw [reexport_block (sE p.1) p.2 (hndl p hp) (h5F p hp)]

/-- PRs with no links contribute no rows, so filtering them away does not
change the concatenated export. -/
theorem foldr_blocks_filter (g : String → RankEntry) :
    ∀ l : List (String × PR),
      (l.filter (fun p => !p.2.links.isEmpty)).foldr
          (fun p acc => prCsvRows (g p.1) p.2 ++ acc) []
        = l.foldr (fun p acc => prCsvRows (g p.1) p.2 ++ acc) [] := by
  intro l
  induction l with
  | nil => rfl
  | cons p t ih =>
    rw [List.filter_cons]
    cases hls : p.2.links with
    | nil =>
      rw [if_neg (by simp [hls])]
      rw [List.foldr_cons, ih]
      rw [show prCsvRows (g p.1) p.2 = [] from by unfold prCsvRows; rw [hls]; rfl]
      rfl
    | cons l0 ls' =>
      rw [if_pos (by simp [hls])]
      rw [List.foldr_cons, List.foldr_cons, ih]

/-- A fully-ranked bare-URL session (no commas, every link resolving to
an integer via its index key) whose one flaw is a duplicated link URL:
after the round trip the shared URL's normalized `by_url` entry takes
precedence and rewrites the first link's rank cell. -/
def sessDupUrl : Session :=
  ⟨[("p", ⟨"u1", "p", "r1", "t1", "m", "g", CellV.cstr "2",
      [⟨"u", "t", "w", none⟩, ⟨"u", "t", "w", none⟩]⟩)],
   [("p", ⟨[(PyKey.ik 0, 1), (PyKey.ik 1, 2)], []⟩)]⟩

/-- C2 counterexample: a PR model containing only bare-URL links with no
embedded commas and fully-specified ranks for which
`export_csv` → `load_ranking` → `export_csv` is *not* byte-identical:
both links carry the URL `u`, ranked 1 and 2 by index; the reimport's
flat dict collapses the URL key to the last value, the normalization
keys it in `by_url`, and URL precedence rewrites link 0's cell from `1`
to `2`. -/
theorem C2_counterexample :
    export_csv (load_ranking sessDupUrl exportHeader (export_csv_rows sessDupUrl))
      ≠ export_csv sessDupUrl := by decide

set_option maxHeartbeats 1000000 in
/-- C2: (amended) for every session whose PR keys are distinct and equal
each record's `pr_link` field, and whose links within each PR carry
pairwise-distinct whitespace-trimmed URLs that do not parse as Python
ints, trimmed label words, and a resolvable integer rank for every link,
the composition `export_csv` → ranking-import ingestion
(`load_ranking_csv_data` + normalization into `by_index`/`by_url`) →
`export_csv` yields byte-identical CSV output.  The pairwise-distinct
URL hypothesis is necessary (`C2_counterexample`). -/
theorem C2_roundtrip (sess : Session)
    (H1 : (sess.prs.map Prod.fst).Nodup)
    (H2 : ∀ p ∈ sess.prs, p.2.pr_link = p.1)
    (H3 : ∀ p ∈ sess.prs, (p.2.links.map Link.link_url).Nodup)
    (H4 : ∀ p ∈ sess.prs, ∀ l ∈ p.2.links, pyStrip l.link_url = l.link_url ∧
      pyInt? l.link_url = none ∧ pyStrip l.label_word = l.label_word)
    (H5 : ∀ p ∈ sess.prs, ∀ q ∈ p.2.links.enum, ∃ r : Int,
      resolveRank (sessionEntry sess p.1) q.1 q.2.link_url = some (PyVal.vint r)) :
    export_csv (load_ranking sess exportHeader (export_csv_rows sess))
      = export_csv sess := by
  have hfold := ranking_fold_blocks (sessionEntry sess) sess.prs [] []
    H1 (fun p _ => rfl) (fun p _ => rfl) H2 H3 H4 H5
  have hload : load_ranking sess exportHeader (export_csv_rows sess)
      = ⟨(sess.prs.filter (fun p => !p.2.links.isEmpty)).map
            (fun p => (p.1, rePR (sessionEntry sess p.1) p.2)),
         (sess.prs.filter (fun p => !p.2.links.isEmpty)).map
            (fun p => (p.1, (⟨biOf (sessionEntry sess p.1) p.2,
                buOf (sessionEntry sess p.1) p.2⟩ : RankEntry)))⟩ := by
    unfold load_ranking
    rw [load_ranking_csv_data_export_header]
    dsimp only
    rw [show export_csv_rows sess
        = sess.prs.foldr (fun p acc =>
            prCsvRows (sessionEntry sess p.1) p.2 ++ acc) [] from rfl]
    rw [hfold]
    dsimp only
    rw [List.nil_append, List.nil_append, List.map_map]
    refine congrArg (Session.mk _) ?_
    refine List.map_congr_left ?_
    intro p hp
    have hp2 := List.mem_of_mem_filter hp
    dsimp only [Function.comp]
    rw [normalizeRankings_reFlat (sessionEntry sess p.1) p.2 (H3 p hp2)
      (fun l hl => (H4 p hp2 l hl).2.1) (H5 p hp2)]
  rw [hload]
  unfold export_csv
  refine congrArg (fun rs => csvRender (exportHeader :: rs)) ?_
  have hndF : ((sess.prs.filter (fun p => !p.2.links.isEmpty)).map Prod.fst).Nodup :=
    List.Nodup.sublist (List.Sublist.map Prod.fst (List.filter_sublist sess.prs)) H1
  rw [export_rows_reloaded (sessionEntry sess)
    (sess.prs.filter (fun p => !p.2.links.isEmpty)) hndF
    (fun p hp => H3 p (List.mem_of_mem_filter hp))
    (fun p hp => H5 p (List.mem_of_mem_filter hp))]
  rw [foldr_blocks_filter (sessionEntry sess) sess.prs]
  rfl

/-- A one-PR, one-link bare-URL session, ranked through `by_url`. -/
def sessRT : Session :=
  ⟨[("p", ⟨"u1", "p", "r1", "t1", "m", "g", CellV.cstr "1",
      [⟨"http://a", "t", "w", none⟩]⟩)],
   [("p", ⟨[], [("http://a", PyVal.vint 3)]⟩)]⟩

/-- C2 witness: the amended round trip holds on a concrete session. -/
theorem C2_roundtrip_witness :
    export_csv (load_ranking sessRT exportHeader (export_csv_rows sessRT))
      = export_csv sessRT :=
  C2_roundtrip sessRT (by decide) (by decide) (by decide) (by decide)
    (fun p hp q hq => by
      rcases List.mem_singleton.mp hp with rfl
      rcases List.mem_singleton.mp hq with rfl
      exact ⟨3, rfl⟩)

end PrLinkRanking
